import Mathlib

/-!
Shallow embedding of `src/subnetcalculator/subnetcalculator.py` (the
`Calculator` and `Exporter` classes) and proofs about it.

Python `IPv4Network` values are modelled as a base address (a `Nat`,
the 32-bit network address) together with a prefix length.  Python
`int` values that may be negative (placeholder counts) are modelled as
`Int`.  Python exceptions are modelled with `Except`; since
`Calculator._compute` mutates `self.result` in place, the error branch
carries the state of the result dict at the moment the exception is
raised, which is what remains observable on the `Calculator` instance
after the exception propagates.
-/

/-- An IPv4 network: network (base) address and prefix length,
mirroring Python's `IPv4Network`. -/
structure IPv4Net where
  base : Nat
  plen : Nat
deriving DecidableEq

/-- Number of addresses in the block (`num_addresses`). -/
def blockSize (n : IPv4Net) : Nat := 2 ^ (32 - n.plen)

/-- `broadcast_address` as a number: last address in the block. -/
def broadcastAddr (n : IPv4Net) : Nat := n.base + blockSize n - 1

/-- Kinds of Python exceptions the modelled code can raise. -/
inductive PyError where
  | valueError (msg : String)
  | indexError
  | typeError (msg : String)
deriving DecidableEq

/-- `Calculator.result`: a Python `dict[str, IPv4Network]`, modelled as an
insertion-ordered association list with unique keys. -/
abbrev Result := List (String × IPv4Net)

/-- Python `dict` assignment `d[k] = v`: overwrite the entry if the key is
present (keeping its position), otherwise append at the end. -/
def dictInsert (m : Result) (k : String) (v : IPv4Net) : Result :=
  match m with
  | [] => [(k, v)]
  | e :: rest => if e.1 = k then (k, v) :: rest else e :: dictInsert rest k v

/-- Python `dict` lookup `d[k]` (as an `Option`). -/
def dictLookup (m : Result) (k : String) : Option IPv4Net :=
  match m with
  | [] => none
  | e :: rest => if e.1 = k then some e.2 else dictLookup rest k

/-- One element of the `structure` sequence, as the YAML loader delivers it:
a string (either the `__placeholder__` token or a leaf identifier), `None`,
a one-key dict `\x7b"__placeholder__": n\x7d`, or a nested list. -/
inductive StructItem where
  | str (s : String)
  | null
  | phN (count : Int)
  | group (children : List StructItem)

/-- Weight contributed by one item in `Calculator.find_structure_len`:
a dict contributes its `__placeholder__` count, everything else 1. -/
def itemWeight : StructItem → Int
  | .phN c => c
  | _ => 1

/-- `Calculator.find_structure_len`. -/
def find_structure_len (s : List StructItem) : Int :=
  s.foldl (fun acc it => acc + itemWeight it) 0

/-- The loop of `Calculator.find_prefix`, indexed by the current loop
variable `i` and the number of iterations left (`range(0, 32)` runs `i`
from 0 to 31). -/
def findPfxAux (value : Int) (i : Nat) : Nat → Option Nat
  | 0 => none
  | fuel + 1 => if value ≤ 2 ^ i then some i else findPfxAux value (i + 1) fuel

/-- `Calculator.find_prefix`: the first `i` in `[0, 32)` with
`value ≤ 2 ^ i`, or an error (`none`) if there is none.  (Python compares
the int against `math.pow(2, i)`, a float that is exact for `i < 32`, and
int/float comparison in Python is mathematically exact.) -/
def findPfx (value : Int) : Option Nat := findPfxAux value 0 32

/-- `IPv4Network.subnets(prefixlen_diff)` from CPython's `ipaddress`:
if the network is a /32 it yields just itself, otherwise the
`2 ^ diff` consecutive blocks of prefix length `plen + diff` covering it.
`Calculator._compute` only calls it with `plen + diff ≤ 32`. -/
def subnetsList (parent : IPv4Net) (diff : Nat) : List IPv4Net :=
  if parent.plen = 32 then [parent]
  else (List.range (2 ^ diff)).map
    (fun i => ⟨parent.base + i * 2 ^ (32 - parent.plen - diff), parent.plen + diff⟩)

mutual

/-- `Calculator._compute(parent_subnet, structure)`.  The result dict is
threaded through; the error branch carries the dict at raise time. -/
def computeAux (parent : IPv4Net) (s : List StructItem) (res : Result) :
    Except (PyError × Result) Result :=
  match findPfx (find_structure_len s) with
  | none => .error (.valueError "Cannot find prefix", res)
  | some p =>
    if p + parent.plen > 32 then .error (.valueError "Too many subnets", res)
    else computeLoop (subnetsList parent p) s 0 res
termination_by (sizeOf s, 1)

/-- The `for i, structure_item in enumerate(structure)` loop of
`Calculator._compute`.  `child_subnets[i]` is read before the item is
inspected, so an out-of-range index raises `IndexError` even for
placeholder items. -/
def computeLoop (children : List IPv4Net) (s : List StructItem) (i : Nat)
    (res : Result) : Except (PyError × Result) Result :=
  match s with
  | [] => .ok res
  | item :: rest =>
    match children[i]? with
    | none => .error (.indexError, res)
    | some child =>
      match item with
      | .null => computeLoop children rest (i + 1) res
      | .str id =>
        if id = "__placeholder__" then computeLoop children rest (i + 1) res
        else computeLoop children rest (i + 1) (dictInsert res id child)
      | .phN _ => computeLoop children rest (i + 1) res
      | .group g =>
        match computeAux child g res with
        | .ok res2 => computeLoop children rest (i + 1) res2
        | .error e => .error e
termination_by (sizeOf s, 0)

end

/-- `Calculator.compute`: run `_compute` on the configured root network
with an initially empty result dict. -/
def compute (net : IPv4Net) (s : List StructItem) : Except (PyError × Result) Result :=
  computeAux net s []

/-! ## The `Exporter` class -/

/-- `SubnetMetadata`: all three pydantic fields default to `None`
(`Field(default=None)` bypasses validation), so a field that is absent in
the configuration is `None` even though its annotation is `str`. -/
structure SubnetMetadata where
  name : Option String
  description : Option String
  tier : Option String
deriving DecidableEq

/-- The default metadata `Exporter.__init__` builds when none is passed:
`SubnetMetadata(name='', description='---', tier='---')`. -/
def exporterDefaultMetadata : SubnetMetadata :=
  ⟨some "", some "---", some "---"⟩

/-- `self.config.metadata.get(subnet_id, self.default_metadata)`. -/
def metaGet (metadata : List (String × SubnetMetadata)) (k : String) : SubnetMetadata :=
  match metadata with
  | [] => exporterDefaultMetadata
  | e :: rest => if e.1 = k then e.2 else metaGet rest k

/-- Decimal digit characters. -/
def digitChar : Nat → Char
  | 0 => '0'
  | 1 => '1'
  | 2 => '2'
  | 3 => '3'
  | 4 => '4'
  | 5 => '5'
  | 6 => '6'
  | 7 => '7'
  | 8 => '8'
  | _ => '9'

/-- Decimal rendering of a natural number, most significant digit first
(Python `str(n)` for a non-negative int). -/
def natDigits (n : Nat) : List Char :=
  if _h : n < 10 then [digitChar n]
  else natDigits (n / 10) ++ [digitChar (n % 10)]
termination_by n
decreasing_by omega

/-- `IPv4Address.compressed`: dotted-decimal rendering of a 32-bit address. -/
def addrChars (a : Nat) : List Char :=
  natDigits (a / 2 ^ 24 % 256) ++ '.' :: natDigits (a / 2 ^ 16 % 256) ++
    '.' :: natDigits (a / 2 ^ 8 % 256) ++ '.' :: natDigits (a % 256)

/-- `IPv4Address.compressed` as a `String`. -/
def addrStr (a : Nat) : String := ⟨addrChars a⟩

/-- `IPv4Network.compressed`: `"<network_address>/<prefixlen>"`. -/
def netChars (n : IPv4Net) : List Char :=
  addrChars n.base ++ '/' :: natDigits n.plen

/-- `IPv4Network.compressed` as a `String`. -/
def netStr (n : IPv4Net) : String := ⟨netChars n⟩

/-- One `SubnetInfo` record as built by `Exporter.build_data`. -/
structure SubnetInfo where
  id : String
  name : String
  description : String
  cidr : IPv4Net
  first_address : String
  last_address : String
deriving DecidableEq

/-- `Exporter.build_data`.  For each entry of the allocation dict (in
insertion order) it resolves metadata and builds a `SubnetInfo`.
`len(subnet_metadata.name)` raises `TypeError` when the name is `None`;
a `None` description fails `SubnetInfo`'s pydantic validation (its
annotation is `str`).  `subnet_cidr[0]` is the network address and
`subnet_cidr[-1]` the broadcast address. -/
def buildData (metadata : List (String × SubnetMetadata)) :
    Result → Except PyError (List SubnetInfo)
  | [] => .ok []
  | (subnet_id, subnet_cidr) :: rest =>
    let md := metaGet metadata subnet_id
    match md.name with
    | none => .error (.typeError "object of type NoneType has no len()")
    | some nm =>
      let resolved := if 0 < nm.length then nm else subnet_id
      match md.description with
      | none => .error (.valueError "validation error for SubnetInfo")
      | some desc =>
        match buildData metadata rest with
        | .ok infos =>
          .ok (⟨subnet_id, resolved, desc, subnet_cidr,
                addrStr subnet_cidr.base, addrStr (broadcastAddr subnet_cidr)⟩ :: infos)
        | .error e => .error e

/-- One element of the `subnets` list of `Exporter.to_dict`. -/
structure SubnetEntryDict where
  id : String
  name : String
  cidr : String
  description : String
  first_address : String
  last_address : String
deriving DecidableEq

/-- The dictionary returned by `Exporter.to_dict`. -/
structure ExportDict where
  network_cidr : String
  subnets : List SubnetEntryDict
deriving DecidableEq

/-- `Exporter.to_dict`. -/
def to_dict (cfgNet : IPv4Net) (data : List SubnetInfo) : ExportDict :=
  ⟨netStr cfgNet,
    data.map (fun info =>
      ⟨info.id, info.name, netStr info.cidr, info.description,
        info.first_address, info.last_address⟩)⟩

/-! ## Derived notions used to state the claims -/

mutual

/-- Leaf identifiers of the tree in pre-order: the strings of the
structure other than the `__placeholder__` token, recursively. -/
def itemLeafIds : StructItem → List String
  | .str id => if id = "__placeholder__" then [] else [id]
  | .null => []
  | .phN _ => []
  | .group g => leafIds g
termination_by it => (sizeOf it, 1)

/-- Leaf identifiers of a structure sequence in pre-order. -/
def leafIds : List StructItem → List String
  | [] => []
  | item :: rest => itemLeafIds item ++ leafIds rest
termination_by s => (sizeOf s, 0)

end

mutual

/-- All placeholder counts in the tree are at least 1. -/
def itemCountsOk : StructItem → Bool
  | .phN c => 1 ≤ c
  | .group g => listCountsOk g
  | _ => true
termination_by it => (sizeOf it, 1)

/-- All placeholder counts in a structure sequence are at least 1. -/
def listCountsOk : List StructItem → Bool
  | [] => true
  | item :: rest => itemCountsOk item && listCountsOk rest
termination_by s => (sizeOf s, 0)

end

mutual

/-- The pre-order sequence of `(identifier, block)` assignments
`_compute` performs on a successful run: the code walks the structure by
item index, so the item at index `i` uses sub-block `i` (a dict
placeholder consumes a single index whatever its count).  Out-of-range
reads are padded with a dummy, which never happens on runs where
`_compute` succeeds. -/
def traceAux (parent : IPv4Net) (s : List StructItem) : List (String × IPv4Net) :=
  traceLoop (subnetsList parent ((findPfx (find_structure_len s)).getD 0)) s 0
termination_by (sizeOf s, 1)

/-- The per-item part of `traceAux`. -/
def traceLoop (children : List IPv4Net) (s : List StructItem) (i : Nat) :
    List (String × IPv4Net) :=
  match s with
  | [] => []
  | item :: rest =>
    (match item with
     | .str id =>
       if id = "__placeholder__" then [] else [(id, children.getD i ⟨0, 0⟩)]
     | .group g => traceAux (children.getD i ⟨0, 0⟩) g
     | _ => []) ++ traceLoop children rest (i + 1)
termination_by (sizeOf s, 0)

end

/-- Value of the last entry of `l` carrying key `k`, if any. -/
def lastLookup (l : List (String × IPv4Net)) (k : String) : Option IPv4Net :=
  match l with
  | [] => none
  | e :: rest =>
    match lastLookup rest k with
    | some v => some v
    | none => if e.1 = k then some e.2 else none

/-- Left-biased choice on options. -/
def combineOpt (a b : Option IPv4Net) : Option IPv4Net :=
  match a with
  | some v => some v
  | none => b

/-- The address range of `inner` is contained in that of `outer`. -/
def withinB (inner outer : IPv4Net) : Prop :=
  outer.base ≤ inner.base ∧ inner.base + blockSize inner ≤ outer.base + blockSize outer

/-- The address ranges of `a` and `b` do not overlap. -/
def disjointB (a b : IPv4Net) : Prop :=
  a.base + blockSize a ≤ b.base ∨ b.base + blockSize b ≤ a.base

instance : DecidablePred fun p : IPv4Net × IPv4Net => withinB p.1 p.2 :=
  fun _ => by unfold withinB; infer_instance

instance (a b : IPv4Net) : Decidable (withinB a b) := by unfold withinB; infer_instance

instance (a b : IPv4Net) : Decidable (disjointB a b) := by unfold disjointB; infer_instance

/-- `a` is a strict descendant of `b`: contained in it and different. -/
def strictDescB (a b : IPv4Net) : Prop := withinB a b ∧ a ≠ b

instance (a b : IPv4Net) : Decidable (strictDescB a b) := by unfold strictDescB; infer_instance

mutual

/-- Rename every string element of the tree (leaf identifiers and the
placeholder token alike) by `f`. -/
def renameItem (f : String → String) : StructItem → StructItem
  | .str id => .str (f id)
  | .null => .null
  | .phN c => .phN c
  | .group g => .group (renameList f g)
termination_by it => (sizeOf it, 1)

/-- `renameItem` mapped over a structure sequence. -/
def renameList (f : String → String) : List StructItem → List StructItem
  | [] => []
  | item :: rest => renameItem f item :: renameList f rest
termination_by s => (sizeOf s, 0)

end

/-- The outcome of a `_compute` run with the mutated dict state erased:
`none` for success, `some e` when exception `e` was raised. -/
def statusOf (r : Except (PyError × Result) Result) : Option PyError :=
  match r with
  | .ok _ => none
  | .error (e, _) => some e

/-- The result-dict state after a `_compute` run, whether it returned
normally or raised. -/
def stateOf (r : Except (PyError × Result) Result) : Result :=
  match r with
  | .ok m => m
  | .error (_, st) => st

/-- A well-formed `IPv4Network` value as produced by the `ipaddress`
module: 32-bit base address, prefix length at most 32, host bits zero. -/
def validNet (n : IPv4Net) : Prop :=
  n.base < 2 ^ 32 ∧ n.plen ≤ 32 ∧ n.base % 2 ^ (32 - n.plen) = 0

instance (n : IPv4Net) : Decidable (validNet n) := by unfold validNet; infer_instance

/-! ## Re-derivation of record fields from the serialized form

Modelled from the spec: the claim about round-tripping the JSON
structured form needs the direction "re-derive the `SubnetRecord` fields
from the serialized strings", an operation the repository itself does not
contain.  The following parser reads a CIDR string back into a network
(octet-wise dotted decimal, `≤ 255` octets, prefix length at most 32,
host bits zero, as `IPv4Network(str)` requires) and recomputes the
record fields from it. -/

/-- Value of a decimal digit character, if it is one. -/
def decDigit (c : Char) : Option Nat :=
  if 48 ≤ c.toNat ∧ c.toNat ≤ 57 then some (c.toNat - 48) else none

/-- Fold decimal digits onto an accumulator; fails on a non-digit. -/
def parseDecAux (acc : Nat) : List Char → Option Nat
  | [] => some acc
  | c :: rest =>
    match decDigit c with
    | some d => parseDecAux (acc * 10 + d) rest
    | none => none

/-- Parse a non-empty list of decimal digits. -/
def parseDecChars (cs : List Char) : Option Nat :=
  match cs with
  | [] => none
  | _ :: _ => parseDecAux 0 cs

/-- Split a character list at every occurrence of `sep`. -/
def splitOnCharAux (sep : Char) : List Char → List Char → List (List Char)
  | [], acc => [acc.reverse]
  | c :: rest, acc =>
    if c = sep then acc.reverse :: splitOnCharAux sep rest []
    else splitOnCharAux sep rest (c :: acc)

/-- Split a character list at every occurrence of `sep`. -/
def splitOnChar (sep : Char) (cs : List Char) : List (List Char) :=
  splitOnCharAux sep cs []

/-- Parse one octet: decimal, at most 255. -/
def parseOctet (cs : List Char) : Option Nat :=
  match parseDecChars cs with
  | some n => if n ≤ 255 then some n else none
  | none => none

/-- Parse a dotted-decimal IPv4 address into its 32-bit value. -/
def parseAddr (cs : List Char) : Option Nat :=
  match splitOnChar '.' cs with
  | [a, b, c, d] =>
    match parseOctet a, parseOctet b, parseOctet c, parseOctet d with
    | some x, some y, some z, some w => some (((x * 256 + y) * 256 + z) * 256 + w)
    | _, _, _, _ => none
  | _ => none

/-- Parse a CIDR string `"a.b.c.d/p"` into a network, enforcing what
`IPv4Network(str)` enforces: prefix length at most 32 and zero host bits. -/
def parseCIDR (str : String) : Option IPv4Net :=
  match splitOnChar '/' str.data with
  | [a, p] =>
    match parseAddr a, parseDecChars p with
    | some b, some plen =>
      if plen ≤ 32 ∧ b % 2 ^ (32 - plen) = 0 then some ⟨b, plen⟩ else none
    | _, _ => none
  | _ => none

/-- Modelled from the spec: re-derive the `cidr`, `first_address` and
`last_address` record fields from a serialized `cidr` string. -/
def rederiveFields (cidrStr : String) : Option (String × String × String) :=
  (parseCIDR cidrStr).map
    (fun n => (netStr n, addrStr n.base, addrStr (broadcastAddr n)))

/-! ## Proof-scaffolding predicates

Statement forms used with the joint induction principle of
`computeAux`/`computeLoop`; each pair states one invariant of `_compute`
at the call level and at the loop level. -/

/-- Lookup in the final dict is the last matching trace entry, else the
lookup in the starting dict (call level). -/
def LookupTraceAuxP (parent : IPv4Net) (s : List StructItem) (res : Result) : Prop :=
  ∀ res2, computeAux parent s res = .ok res2 →
    ∀ k, dictLookup res2 k =
      combineOpt (lastLookup (traceAux parent s) k) (dictLookup res k)

/-- Lookup in the final dict is the last matching trace entry, else the
lookup in the starting dict (loop level). -/
def LookupTraceLoopP (children : List IPv4Net) (s : List StructItem) (i : Nat)
    (res : Result) : Prop :=
  ∀ res2, computeLoop children s i res = .ok res2 →
    ∀ k, dictLookup res2 k =
      combineOpt (lastLookup (traceLoop children s i) k) (dictLookup res k)

/-- Disjointness of the blocks of two dict entries. -/
def entDisj (a b : String × IPv4Net) : Prop := disjointB a.2 b.2

/-- New entries of a successful call lie within the parent block (call level). -/
def WithinAuxP (parent : IPv4Net) (s : List StructItem) (res : Result) : Prop :=
  ∀ res2, computeAux parent s res = .ok res2 →
    ∀ e ∈ res2, e ∈ res ∨ withinB e.2 parent

/-- New entries of a successful loop lie within one of the children at an
index at least `i` (loop level). -/
def WithinLoopP (children : List IPv4Net) (s : List StructItem) (i : Nat)
    (res : Result) : Prop :=
  ∀ res2, computeLoop children s i res = .ok res2 →
    ∀ e ∈ res2, e ∈ res ∨
      ∃ j c, i ≤ j ∧ children[j]? = some c ∧ withinB e.2 c

/-- Pairwise disjointness is preserved by a successful call (call level). -/
def PairwiseAuxP (parent : IPv4Net) (s : List StructItem) (res : Result) : Prop :=
  ∀ res2, computeAux parent s res = .ok res2 →
    res.Pairwise entDisj → (∀ e ∈ res, disjointB e.2 parent) →
    res2.Pairwise entDisj

/-- Pairwise disjointness is preserved by the loop (loop level). -/
def PairwiseLoopP (children : List IPv4Net) (s : List StructItem) (i : Nat)
    (res : Result) : Prop :=
  ∀ res2, computeLoop children s i res = .ok res2 →
    res.Pairwise entDisj →
    (∀ e ∈ res, ∀ j c, i ≤ j → children[j]? = some c → disjointB e.2 c) →
    (∀ j1 j2 c1 c2, i ≤ j1 → i ≤ j2 → j1 ≠ j2 → children[j1]? = some c1 →
      children[j2]? = some c2 → disjointB c1 c2) →
    res2.Pairwise entDisj

/-- Keys of a successful call are the starting keys followed by the leaf
identifiers, provided those are fresh and duplicate-free (call level). -/
def KeysAuxP (parent : IPv4Net) (s : List StructItem) (res : Result) : Prop :=
  ∀ res2, computeAux parent s res = .ok res2 →
    (leafIds s).Nodup → (∀ k ∈ res.map Prod.fst, k ∉ leafIds s) →
    res2.map Prod.fst = res.map Prod.fst ++ leafIds s

/-- Keys of a successful loop are the starting keys followed by the leaf
identifiers, provided those are fresh and duplicate-free (loop level). -/
def KeysLoopP (children : List IPv4Net) (s : List StructItem) (i : Nat)
    (res : Result) : Prop :=
  ∀ res2, computeLoop children s i res = .ok res2 →
    (leafIds s).Nodup → (∀ k ∈ res.map Prod.fst, k ∉ leafIds s) →
    res2.map Prod.fst = res.map Prod.fst ++ leafIds s

/-- The run status (success, or the exception raised) does not depend on
the strings in the structure nor on the dict state (call level). -/
def RenameAuxP (parent : IPv4Net) (s : List StructItem) (res : Result) : Prop :=
  ∀ (f : String → String) (res1 : Result),
    statusOf (computeAux parent (renameList f s) res1) = statusOf (computeAux parent s res)

/-- The run status does not depend on the strings in the structure nor on
the dict state (loop level). -/
def RenameLoopP (children : List IPv4Net) (s : List StructItem) (i : Nat)
    (res : Result) : Prop :=
  ∀ (f : String → String) (res1 : Result),
    statusOf (computeLoop children (renameList f s) i res1) =
      statusOf (computeLoop children s i res)

/-- Every exception `_compute` raises is a `ValueError` or an
`IndexError` (call level). -/
def ErrKindAuxP (parent : IPv4Net) (s : List StructItem) (res : Result) : Prop :=
  ∀ e st, computeAux parent s res = .error (e, st) →
    (∃ msg, e = PyError.valueError msg) ∨ e = PyError.indexError

/-- Every exception the loop raises is a `ValueError` or an `IndexError`
(loop level). -/
def ErrKindLoopP (children : List IPv4Net) (s : List StructItem) (i : Nat)
    (res : Result) : Prop :=
  ∀ e st, computeLoop children s i res = .error (e, st) →
    (∃ msg, e = PyError.valueError msg) ∨ e = PyError.indexError

/-- With all placeholder counts at least 1, no `IndexError` is ever
raised (call level). -/
def NoIdxAuxP (parent : IPv4Net) (s : List StructItem) (res : Result) : Prop :=
  listCountsOk s = true →
    ∀ e st, computeAux parent s res = .error (e, st) → e ≠ PyError.indexError

/-- With all placeholder counts at least 1 and all walked indices in
bounds, no `IndexError` is ever raised (loop level). -/
def NoIdxLoopP (children : List IPv4Net) (s : List StructItem) (i : Nat)
    (res : Result) : Prop :=
  listCountsOk s = true → i + s.length ≤ children.length →
    ∀ e st, computeLoop children s i res = .error (e, st) → e ≠ PyError.indexError

/-- Keys present in the dict stay present, also when an exception is
raised (call level). -/
def KeepKeysAuxP (parent : IPv4Net) (s : List StructItem) (res : Result) : Prop :=
  ∀ k, (dictLookup res k).isSome →
    (dictLookup (stateOf (computeAux parent s res)) k).isSome

/-- Keys present in the dict stay present, also when an exception is
raised (loop level). -/
def KeepKeysLoopP (children : List IPv4Net) (s : List StructItem) (i : Nat)
    (res : Result) : Prop :=
  ∀ k, (dictLookup res k).isSome →
    (dictLookup (stateOf (computeLoop children s i res)) k).isSome

/-! ## Lemmas about `find_prefix` -/

theorem findPfxAux_eq_some {v : Int} {fuel : Nat} : ∀ {i p : Nat},
    (findPfxAux v i fuel = some p ↔
      i ≤ p ∧ p < i + fuel ∧ v ≤ 2 ^ p ∧ ∀ q, i ≤ q → q < p → 2 ^ q < v) := by
  induction fuel with
  | zero => intro i p; simp only [findPfxAux]; constructor
            · intro h; exact absurd h (by simp)
            · intro h; omega
  | succ fuel ih =>
    intro i p
    simp only [findPfxAux]
    by_cases h : v ≤ 2 ^ i
    · simp only [if_pos h]
      constructor
      · rintro h2
        have hp : p = i := by cases h2; rfl
        subst hp
        exact ⟨le_refl _, by omega, h, fun q hq1 hq2 => by omega⟩
      · rintro ⟨h1, h2, h3, h4⟩
        by_cases hip : p = i
        · subst hip; rfl
        · exact absurd h (not_le.mpr (h4 i (le_refl _) (by omega)))
    · simp only [if_neg h]
      rw [ih]
      constructor
      · rintro ⟨h1, h2, h3, h4⟩
        refine ⟨by omega, by omega, h3, fun q hq1 hq2 => ?_⟩
        by_cases hqi : q = i
        · subst hqi; exact not_le.mp h
        · exact h4 q (by omega) hq2
      · rintro ⟨h1, h2, h3, h4⟩
        have hpi : p ≠ i := fun he => h (he ▸ h3)
        exact ⟨by omega, by omega, h3, fun q hq1 hq2 => h4 q (by omega) hq2⟩

theorem findPfxAux_eq_none {v : Int} {fuel : Nat} : ∀ {i : Nat},
    (findPfxAux v i fuel = none ↔ ∀ q, i ≤ q → q < i + fuel → 2 ^ q < v) := by
  induction fuel with
  | zero => intro i; simp [findPfxAux]; omega
  | succ fuel ih =>
    intro i
    simp only [findPfxAux]
    by_cases h : v ≤ 2 ^ i
    · simp only [if_pos h]
      constructor
      · intro h2; exact absurd h2 (by simp)
      · intro h2; exact absurd h (not_le.mpr (h2 i (le_refl _) (by omega)))
    · simp only [if_neg h]
      rw [ih]
      constructor
      · intro h2 q hq1 hq2
        by_cases hqi : q = i
        · subst hqi; exact not_le.mp h
        · exact h2 q (by omega) (by omega)
      · intro h2 q hq1 hq2; exact h2 q (by omega) (by omega)

theorem findPfx_eq_some {v : Int} {p : Nat} :
    findPfx v = some p ↔ p < 32 ∧ v ≤ 2 ^ p ∧ ∀ q, q < p → 2 ^ q < v := by
  rw [findPfx, findPfxAux_eq_some]
  constructor
  · rintro ⟨_, h2, h3, h4⟩; exact ⟨by omega, h3, fun q hq => h4 q (by omega) hq⟩
  · rintro ⟨h1, h2, h3⟩; exact ⟨by omega, by omega, h2, fun q _ hq => h3 q hq⟩

theorem findPfx_eq_none {v : Int} :
    findPfx v = none ↔ ∀ q, q < 32 → 2 ^ q < v := by
  rw [findPfx, findPfxAux_eq_none]
  constructor
  · intro h q hq; exact h q (by omega) (by omega)
  · intro h q _ hq; exact h q (by omega)

/-- On success, `find_prefix` yields enough bits for the requested count. -/
theorem findPfx_le {v : Int} {p : Nat} (h : findPfx v = some p) : v ≤ 2 ^ p :=
  (findPfx_eq_some.mp h).2.1

/-! ## Lemmas about the result dict -/

theorem dictLookup_dictInsert (m : Result) (k k2 : String) (v : IPv4Net) :
    dictLookup (dictInsert m k v) k2 = if k2 = k then some v else dictLookup m k2 := by
  induction m with
  | nil =>
    simp only [dictInsert, dictLookup]
    by_cases h : k2 = k
    · simp [h]
    · have h2 : ¬ k = k2 := fun he => h he.symm
      simp [h, h2]
  | cons e rest ih =>
    by_cases h : e.1 = k
    · subst h
      simp only [dictInsert, if_pos rfl, dictLookup]
      by_cases h2 : k2 = e.1
      · simp [h2]
      · have h3 : ¬ e.1 = k2 := fun he => h2 he.symm
        simp [h2, h3]
    · simp only [dictInsert, if_neg h, dictLookup, ih]
      by_cases h2 : e.1 = k2
      · have h3 : ¬ k2 = k := fun he => h (he ▸ h2)
        simp [h2, h3]
      · simp [h2]

theorem mem_dictInsert {m : Result} {k : String} {v : IPv4Net} {e : String × IPv4Net}
    (h : e ∈ dictInsert m k v) : e ∈ m ∨ e = (k, v) := by
  induction m with
  | nil => simp [dictInsert] at h; simp [h]
  | cons e2 rest ih =>
    by_cases h2 : e2.1 = k
    · simp only [dictInsert, if_pos h2] at h
      rcases List.mem_cons.mp h with h3 | h3
      · right; exact h3
      · left; exact List.mem_cons_of_mem _ h3
    · simp only [dictInsert, if_neg h2] at h
      rcases List.mem_cons.mp h with h3 | h3
      · left; exact h3 ▸ List.mem_cons_self _ _
      · rcases ih h3 with h4 | h4
        · left; exact List.mem_cons_of_mem _ h4
        · right; exact h4

theorem dictInsert_of_fresh {m : Result} {k : String} (v : IPv4Net)
    (h : k ∉ m.map Prod.fst) : dictInsert m k v = m ++ [(k, v)] := by
  induction m with
  | nil => simp [dictInsert]
  | cons e rest ih =>
    simp only [List.map_cons, List.mem_cons, not_or] at h
    simp only [dictInsert, if_neg (fun he : e.1 = k => h.1 he.symm), List.cons_append,
      List.cons.injEq, true_and]
    exact ih h.2

theorem pairwise_dictInsert {R : (String × IPv4Net) → (String × IPv4Net) → Prop}
    {m : Result} {k : String} {v : IPv4Net} (hm : m.Pairwise R)
    (hR : ∀ e ∈ m, R e (k, v) ∧ R (k, v) e) :
    (dictInsert m k v).Pairwise R := by
  induction m with
  | nil => simp [dictInsert]
  | cons e rest ih =>
    rcases List.pairwise_cons.mp hm with ⟨he, hrest⟩
    by_cases h2 : e.1 = k
    · simp only [dictInsert, if_pos h2]
      exact List.pairwise_cons.mpr
        ⟨fun b hb => (hR b (List.mem_cons_of_mem _ hb)).2, hrest⟩
    · simp only [dictInsert, if_neg h2]
      refine List.pairwise_cons.mpr ⟨fun b hb => ?_, ih hrest
        (fun b hb => hR b (List.mem_cons_of_mem _ hb))⟩
      rcases mem_dictInsert hb with h3 | h3
      · exact he b h3
      · exact h3 ▸ (hR e (List.mem_cons_self _ _)).1

theorem dictLookup_isSome_dictInsert {m : Result} {k k2 : String} {v : IPv4Net}
    (h : (dictLookup m k2).isSome) : (dictLookup (dictInsert m k v) k2).isSome := by
  rw [dictLookup_dictInsert]
  by_cases h2 : k2 = k <;> simp [h2, h]

/-! ## Lemmas about `lastLookup` and `combineOpt` -/

theorem combineOpt_none_right (a : Option IPv4Net) : combineOpt a none = a := by
  cases a <;> rfl

theorem combineOpt_assoc (a b c : Option IPv4Net) :
    combineOpt (combineOpt a b) c = combineOpt a (combineOpt b c) := by
  cases a <;> cases b <;> rfl

theorem lastLookup_append (a b : List (String × IPv4Net)) (k : String) :
    lastLookup (a ++ b) k = combineOpt (lastLookup b k) (lastLookup a k) := by
  induction a with
  | nil => simp only [List.nil_append, lastLookup, combineOpt_none_right]
  | cons e rest ih =>
    simp only [List.cons_append, lastLookup, List.append_eq]
    rw [ih]
    cases lastLookup b k <;> cases lastLookup rest k <;> simp [combineOpt]

theorem lastLookup_eq_none_iff {l : List (String × IPv4Net)} {k : String} :
    lastLookup l k = none ↔ k ∉ l.map Prod.fst := by
  induction l with
  | nil => simp [lastLookup]
  | cons e rest ih =>
    simp only [lastLookup, List.map_cons, List.mem_cons]
    cases h : lastLookup rest k with
    | some v =>
      have hmem : k ∈ rest.map Prod.fst := by
        by_contra hc
        exact Option.noConfusion ((ih.mpr hc).symm.trans h)
      simp [hmem]
    | none =>
      have hmem : k ∉ rest.map Prod.fst := ih.mp h
      by_cases h2 : e.1 = k
      · simp [h2, hmem]
      · have h3 : ¬ k = e.1 := fun he => h2 he.symm
        simp [h2, h3, hmem]

/-! ## Lemmas about `subnets` -/

theorem length_subnetsList (parent : IPv4Net) (diff : Nat) :
    (subnetsList parent diff).length = if parent.plen = 32 then 1 else 2 ^ diff := by
  unfold subnetsList
  split <;> simp

theorem subnetsList_getElem? {parent : IPv4Net} {diff i : Nat}
    (hcap : diff + parent.plen ≤ 32) (hi : i < (subnetsList parent diff).length) :
    (subnetsList parent diff)[i]? =
      some ⟨parent.base + i * 2 ^ (32 - parent.plen - diff), parent.plen + diff⟩ := by
  unfold subnetsList at hi ⊢
  by_cases h : parent.plen = 32
  · have hd : diff = 0 := by omega
    subst hd
    simp only [if_pos h] at hi ⊢
    have hi0 : i = 0 := by simpa using hi
    subst hi0
    simp
  · simp only [if_neg h] at hi ⊢
    simp only [List.length_map, List.length_range] at hi
    rw [List.getElem?_map, List.getElem?_range hi]
    rfl

theorem getD_of_getElem? {l : List IPv4Net} {i : Nat} {c : IPv4Net}
    (h : l[i]? = some c) (d : IPv4Net) : l.getD i d = c := by
  simp [List.getD, h]

theorem isSome_getElem? {l : List IPv4Net} {i : Nat} (h : i < l.length) :
    ∃ c, l[i]? = some c := by
  simp [List.getElem?_eq_getElem h]

theorem subnetsList_within {parent : IPv4Net} {diff i : Nat} {c : IPv4Net}
    (hcap : diff + parent.plen ≤ 32)
    (hc : (subnetsList parent diff)[i]? = some c) : withinB c parent := by
  have hi : i < (subnetsList parent diff).length := by
    by_contra hlt
    rw [List.getElem?_eq_none (by omega)] at hc
    exact Option.noConfusion hc
  rw [subnetsList_getElem? hcap hi] at hc
  cases hc
  unfold withinB blockSize
  simp only
  have hlen : i < (subnetsList parent diff).length := hi
  rw [length_subnetsList] at hlen
  by_cases h : parent.plen = 32
  · have hd : diff = 0 := by omega
    subst hd
    simp [h] at hlen ⊢
    omega
  · simp only [if_neg h] at hlen
    have hsub : 32 - (parent.plen + diff) = 32 - parent.plen - diff := by omega
    rw [hsub]
    have hpow : 2 ^ diff * 2 ^ (32 - parent.plen - diff) = 2 ^ (32 - parent.plen) := by
      rw [← pow_add]
      congr 1
      omega
    have hmul : (i + 1) * 2 ^ (32 - parent.plen - diff) ≤ 2 ^ (32 - parent.plen) := by
      calc (i + 1) * 2 ^ (32 - parent.plen - diff)
          ≤ 2 ^ diff * 2 ^ (32 - parent.plen - diff) :=
            Nat.mul_le_mul_right _ (by omega)
        _ = 2 ^ (32 - parent.plen) := hpow
    constructor
    · omega
    · have : i * 2 ^ (32 - parent.plen - diff) + 2 ^ (32 - parent.plen - diff)
          = (i + 1) * 2 ^ (32 - parent.plen - diff) := by ring
      omega

theorem subnetsList_disjoint {parent : IPv4Net} {diff i j : Nat} {c1 c2 : IPv4Net}
    (hcap : diff + parent.plen ≤ 32) (hne : i ≠ j)
    (hc1 : (subnetsList parent diff)[i]? = some c1)
    (hc2 : (subnetsList parent diff)[j]? = some c2) : disjointB c1 c2 := by
  have hi : i < (subnetsList parent diff).length := by
    by_contra hlt
    rw [List.getElem?_eq_none (by omega)] at hc1
    exact Option.noConfusion hc1
  have hj : j < (subnetsList parent diff).length := by
    by_contra hlt
    rw [List.getElem?_eq_none (by omega)] at hc2
    exact Option.noConfusion hc2
  have hlen := hi
  rw [length_subnetsList] at hlen
  by_cases h : parent.plen = 32
  · rw [length_subnetsList, if_pos h] at hi hj
    omega
  · simp only [if_neg h] at hlen
    rw [subnetsList_getElem? hcap hi] at hc1
    rw [subnetsList_getElem? hcap hj] at hc2
    cases hc1
    cases hc2
    unfold disjointB blockSize
    simp only
    have hsub : 32 - (parent.plen + diff) = 32 - parent.plen - diff := by omega
    rw [hsub]
    rcases Nat.lt_or_ge i j with hij | hij
    · left
      have : (i + 1) * 2 ^ (32 - parent.plen - diff) ≤ j * 2 ^ (32 - parent.plen - diff) :=
        Nat.mul_le_mul_right _ (by omega)
      have h2 : i * 2 ^ (32 - parent.plen - diff) + 2 ^ (32 - parent.plen - diff)
          = (i + 1) * 2 ^ (32 - parent.plen - diff) := by ring
      omega
    · right
      have hij2 : j < i := by omega
      have : (j + 1) * 2 ^ (32 - parent.plen - diff) ≤ i * 2 ^ (32 - parent.plen - diff) :=
        Nat.mul_le_mul_right _ (by omega)
      have h2 : j * 2 ^ (32 - parent.plen - diff) + 2 ^ (32 - parent.plen - diff)
          = (j + 1) * 2 ^ (32 - parent.plen - diff) := by ring
      omega

theorem withinB_trans {a b c : IPv4Net} (h1 : withinB a b) (h2 : withinB b c) :
    withinB a c := by
  unfold withinB at *
  omega

theorem withinB_refl (a : IPv4Net) : withinB a a := by
  unfold withinB
  omega

theorem disjointB_symm {a b : IPv4Net} (h : disjointB a b) : disjointB b a := by
  unfold disjointB at *
  omega

theorem disjointB_mono_left {a a2 b : IPv4Net} (h1 : withinB a a2) (h2 : disjointB a2 b) :
    disjointB a b := by
  unfold withinB disjointB at *
  omega

/-! ## The result dict refines the pre-order assignment trace -/

theorem lookup_trace_main :
    ∀ (parent : IPv4Net) (s : List StructItem) (res : Result),
      LookupTraceAuxP parent s res := by
  apply computeAux.induct LookupTraceAuxP LookupTraceLoopP
  · intro parent s res hfind
    unfold LookupTraceAuxP
    intro res2 h k
    unfold computeAux at h
    simp only [hfind] at h
    simp at h
  · intro parent s res p hfind hcap
    unfold LookupTraceAuxP
    intro res2 h k
    unfold computeAux at h
    simp only [hfind, if_pos hcap] at h
    simp at h
  · intro parent s res p hfind hcap ih
    unfold LookupTraceAuxP
    unfold LookupTraceLoopP at ih
    intro res2 h k
    unfold computeAux at h
    simp only [hfind, if_neg hcap] at h
    unfold traceAux
    rw [hfind]
    simp only [Option.getD_some]
    exact ih res2 h k
  · intro children i res
    unfold LookupTraceLoopP
    intro res2 h k
    unfold computeLoop at h
    simp only [Except.ok.injEq] at h
    subst h
    simp only [traceLoop]
    simp [lastLookup, combineOpt]
  · intro children i res item rest hnone
    unfold LookupTraceLoopP
    intro res2 h k
    unfold computeLoop at h
    simp only [hnone] at h
    simp at h
  · intro children i res rest child hchild ih
    unfold LookupTraceLoopP at ih ⊢
    intro res2 h k
    unfold computeLoop at h
    simp only [hchild] at h
    simp only [traceLoop, List.nil_append]
    exact ih res2 h k
  · intro children i res rest child hchild ih
    unfold LookupTraceLoopP at ih ⊢
    intro res2 h k
    unfold computeLoop at h
    simp only [hchild, if_pos rfl] at h
    simp only [traceLoop, if_pos rfl, List.nil_append]
    exact ih res2 h k
  · intro children i res rest child hchild id hid ih
    unfold LookupTraceLoopP at ih ⊢
    intro res2 h k
    unfold computeLoop at h
    simp only [hchild, if_neg hid] at h
    rw [ih res2 h k, dictLookup_dictInsert]
    simp only [traceLoop, if_neg hid, List.singleton_append]
    rw [getD_of_getElem? hchild]
    simp only [lastLookup]
    cases lastLookup (traceLoop children rest (i + 1)) k with
    | some v => simp [combineOpt]
    | none =>
      by_cases hk : k = id
      · simp [hk, combineOpt]
      · have h2 : ¬ id = k := fun he => hk he.symm
        simp [hk, h2, combineOpt]
  · intro children i res rest child hchild count ih
    unfold LookupTraceLoopP at ih ⊢
    intro res2 h k
    unfold computeLoop at h
    simp only [hchild] at h
    simp only [traceLoop, List.nil_append]
    exact ih res2 h k
  · intro children i res rest child hchild g res2i hgok ihaux ihloop
    unfold LookupTraceAuxP at ihaux
    unfold LookupTraceLoopP at ihloop ⊢
    intro res2 h k
    unfold computeLoop at h
    simp only [hchild, hgok] at h
    rw [ihloop res2 h k, ihaux res2i hgok k]
    simp only [traceLoop]
    rw [getD_of_getElem? hchild]
    rw [lastLookup_append, combineOpt_assoc]
  · intro children i res rest child hchild g e hgerr ihaux
    unfold LookupTraceLoopP
    intro res2 h k
    unfold computeLoop at h
    simp only [hchild, hgerr] at h
    simp at h

/-- On a successful `_compute` run, looking up a key in the produced
dict yields the value of the last trace entry for that key. -/
theorem computeAux_lookup_trace {parent : IPv4Net} {s : List StructItem}
    {res res2 : Result} (h : computeAux parent s res = .ok res2) (k : String) :
    dictLookup res2 k = combineOpt (lastLookup (traceAux parent s) k) (dictLookup res k) :=
  lookup_trace_main parent s res res2 h k

/-! ## Small structural lemmas -/

theorem foldl_add_shift (s : List StructItem) : ∀ c : Int,
    s.foldl (fun acc it => acc + itemWeight it) c =
      c + s.foldl (fun acc it => acc + itemWeight it) 0 := by
  induction s with
  | nil => intro c; simp
  | cons item rest ih =>
    intro c
    simp only [List.foldl_cons]
    rw [ih (c + itemWeight item), ih (0 + itemWeight item)]
    ring

theorem find_structure_len_nil : find_structure_len [] = 0 := rfl

theorem find_structure_len_cons (item : StructItem) (rest : List StructItem) :
    find_structure_len (item :: rest) = itemWeight item + find_structure_len rest := by
  unfold find_structure_len
  simp only [List.foldl_cons]
  rw [foldl_add_shift]
  ring

theorem length_le_structure_len {s : List StructItem} (h : listCountsOk s = true) :
    (s.length : Int) ≤ find_structure_len s := by
  induction s with
  | nil => simp [find_structure_len_nil]
  | cons item rest ih =>
    unfold listCountsOk at h
    rw [Bool.and_eq_true] at h
    rw [find_structure_len_cons]
    have h1 : (1 : Int) ≤ itemWeight item := by
      cases item with
      | phN c =>
        unfold itemCountsOk at h
        have := h.1
        simp only [decide_eq_true_eq] at this
        exact this
      | str s2 => simp [itemWeight]
      | null => simp [itemWeight]
      | group g => simp [itemWeight]
    have h2 := ih h.2
    simp only [List.length_cons]
    push_cast
    omega

theorem find_structure_len_rename (f : String → String) (s : List StructItem) :
    find_structure_len (renameList f s) = find_structure_len s := by
  induction s with
  | nil => simp [renameList]
  | cons item rest ih =>
    simp only [renameList]
    rw [find_structure_len_cons, find_structure_len_cons, ih]
    cases item <;> simp [renameItem, itemWeight]

theorem leafIds_nil : leafIds [] = [] := by unfold leafIds; rfl

theorem leafIds_cons (item : StructItem) (rest : List StructItem) :
    leafIds (item :: rest) = itemLeafIds item ++ leafIds rest := by
  conv_lhs => rw [leafIds]

theorem mem_leafIds_of_getElem {s : List StructItem} {i : Nat} {id : String}
    (h : s[i]? = some (.str id)) (hid : id ≠ "__placeholder__") : id ∈ leafIds s := by
  induction s generalizing i with
  | nil => simp at h
  | cons item rest ih =>
    rw [leafIds_cons]
    cases i with
    | zero =>
      simp only [List.getElem?_cons_zero, Option.some.injEq] at h
      subst h
      simp [itemLeafIds, hid]
    | succ i2 =>
      simp only [List.getElem?_cons_succ] at h
      exact List.mem_append_right _ (ih h)

theorem statusOf_eq_none {r : Except (PyError × Result) Result} :
    statusOf r = none ↔ ∃ m, r = .ok m := by
  cases r with
  | ok m => simp [statusOf]
  | error e => cases e; simp [statusOf]

theorem statusOf_eq_some {r : Except (PyError × Result) Result} {pe : PyError} :
    statusOf r = some pe ↔ ∃ st, r = .error (pe, st) := by
  cases r with
  | ok m => simp [statusOf]
  | error e =>
    cases e with
    | mk e1 st1 =>
      simp only [statusOf, Option.some.injEq]
      constructor
      · rintro rfl; exact ⟨st1, rfl⟩
      · rintro ⟨st, hst⟩
        cases hst
        rfl

/-! ## The trace's keys are the leaf identifiers -/

theorem trace_map_fst_main :
    ∀ (parent : IPv4Net) (s : List StructItem),
      (traceAux parent s).map Prod.fst = leafIds s := by
  apply traceAux.induct (fun parent s => (traceAux parent s).map Prod.fst = leafIds s)
    (fun children s i => (traceLoop children s i).map Prod.fst = leafIds s)
  · intro parent s ih
    unfold traceAux
    exact ih
  · intro children i
    simp only [traceLoop, leafIds_nil, List.map_nil]
  · intro children i item rest hitem ihrest
    rw [leafIds_cons]
    cases item with
    | str id =>
      rw [traceLoop.eq_2, List.map_append, ihrest]
      by_cases hid : id = "__placeholder__"
      · simp [hid, itemLeafIds]
      · simp [hid, itemLeafIds]
    | null =>
      rw [traceLoop.eq_4 _ _ _ _ (fun x hx => StructItem.noConfusion hx)
        (fun x hx => StructItem.noConfusion hx), List.map_append, ihrest]
      simp [itemLeafIds]
    | phN c =>
      rw [traceLoop.eq_4 _ _ _ _ (fun x hx => StructItem.noConfusion hx)
        (fun x hx => StructItem.noConfusion hx), List.map_append, ihrest]
      simp [itemLeafIds]
    | group g =>
      rw [traceLoop.eq_3, List.map_append, ihrest]
      simp only [itemLeafIds]
      congr 1


/-- Loop-level version of `trace_map_fst_main`. -/
theorem traceLoop_map_fst (children : List IPv4Net) :
    ∀ (s : List StructItem) (i : Nat),
      (traceLoop children s i).map Prod.fst = leafIds s := by
  intro s
  induction s with
  | nil => intro i; rw [traceLoop.eq_1, leafIds_nil, List.map_nil]
  | cons item rest ih =>
    intro i
    rw [leafIds_cons]
    cases item with
    | str id =>
      rw [traceLoop.eq_2, List.map_append, ih]
      by_cases hid : id = "__placeholder__"
      · simp [hid, itemLeafIds]
      · simp [hid, itemLeafIds]
    | null =>
      rw [traceLoop.eq_4 _ _ _ _ (fun x hx => StructItem.noConfusion hx)
        (fun x hx => StructItem.noConfusion hx), List.map_append, ih]
      simp [itemLeafIds]
    | phN c =>
      rw [traceLoop.eq_4 _ _ _ _ (fun x hx => StructItem.noConfusion hx)
        (fun x hx => StructItem.noConfusion hx), List.map_append, ih]
      simp [itemLeafIds]
    | group g =>
      rw [traceLoop.eq_3, List.map_append, ih]
      simp only [itemLeafIds]
      congr 1
      exact trace_map_fst_main _ g

/-! ## Positional lookup in the trace -/

theorem traceLoop_lastLookup_pos {children : List IPv4Net} :
    ∀ (s : List StructItem) (i j : Nat) (id : String),
      s[i]? = some (.str id) → id ≠ "__placeholder__" →
      (leafIds s).count id = 1 →
      lastLookup (traceLoop children s j) id =
        some (children.getD (j + i) ⟨0, 0⟩) := by
  intro s
  induction s with
  | nil => intro i j id h hid hcount; simp at h
  | cons item rest ih =>
    intro i j id h hid hcount
    cases i with
    | zero =>
      simp only [List.getElem?_cons_zero, Option.some.injEq] at h
      subst h
      rw [traceLoop.eq_2, lastLookup_append]
      rw [leafIds_cons] at hcount
      simp only [itemLeafIds, if_neg hid, List.count_append] at hcount
      have hone : List.count id [id] = 1 := by simp
      have hrest : (leafIds rest).count id = 0 := by omega
      have hnotmem : id ∉ (leafIds rest) := List.count_eq_zero.mp hrest
      have hnone : lastLookup (traceLoop children rest (j + 1)) id = none := by
        rw [lastLookup_eq_none_iff, traceLoop_map_fst]
        exact hnotmem
      rw [hnone]
      simp only [if_neg hid, combineOpt]
      simp [lastLookup]
    | succ i2 =>
      simp only [List.getElem?_cons_succ] at h
      have hmem : id ∈ leafIds rest := mem_leafIds_of_getElem h hid
      rw [leafIds_cons, List.count_append] at hcount
      have hpos : 0 < (leafIds rest).count id := List.count_pos_iff.mpr hmem
      have hrestc : (leafIds rest).count id = 1 := by omega
      have harith : j + 1 + i2 = j + (i2 + 1) := by omega
      have hih := ih i2 (j + 1) id h hid hrestc
      cases item with
      | str id2 =>
        rw [traceLoop.eq_2, lastLookup_append, hih]
        simp only [combineOpt]
        rw [harith]
      | null =>
        rw [traceLoop.eq_4 _ _ _ _ (fun x hx => StructItem.noConfusion hx)
          (fun x hx => StructItem.noConfusion hx), lastLookup_append, hih]
        simp only [combineOpt]
        rw [harith]
      | phN c =>
        rw [traceLoop.eq_4 _ _ _ _ (fun x hx => StructItem.noConfusion hx)
          (fun x hx => StructItem.noConfusion hx), lastLookup_append, hih]
        simp only [combineOpt]
        rw [harith]
      | group g =>
        rw [traceLoop.eq_3, lastLookup_append, hih]
        simp only [combineOpt]
        rw [harith]

/-! ## A successful loop walks only in-bounds indices -/

theorem computeLoop_ok_bound {children : List IPv4Net} :
    ∀ {s : List StructItem} {i : Nat} {res res2 : Result},
      computeLoop children s i res = .ok res2 →
      ∀ j, j < s.length → i + j < children.length := by
  intro s
  induction s with
  | nil => intro i res res2 h j hj; simp at hj
  | cons item rest ih =>
    intro i res res2 h j hj
    unfold computeLoop at h
    cases hchild : children[i]? with
    | none =>
      simp only [hchild] at h
      simp at h
    | some child =>
      have hlt : i < children.length := by
        by_contra hge
        rw [List.getElem?_eq_none (by omega)] at hchild
        exact Option.noConfusion hchild
      cases j with
      | zero => omega
      | succ j2 =>
        have hj2 : j2 < rest.length := by
          simp only [List.length_cons] at hj
          omega
        have harith : ∀ m, i + 1 + j2 < m → i + (j2 + 1) < m := by omega
        cases item with
        | null =>
          simp only [hchild] at h
          exact harith _ (ih h j2 hj2)
        | str id =>
          simp only [hchild] at h
          by_cases hid : id = "__placeholder__"
          · rw [if_pos hid] at h
            exact harith _ (ih h j2 hj2)
          · rw [if_neg hid] at h
            exact harith _ (ih h j2 hj2)
        | phN c =>
          simp only [hchild] at h
          exact harith _ (ih h j2 hj2)
        | group g =>
          simp only [hchild] at h
          cases hg : computeAux child g res with
          | ok res2i =>
            simp only [hg] at h
            exact harith _ (ih h j2 hj2)
          | error e =>
            simp only [hg] at h
            simp at h

/-! ## New entries lie within the parent block -/

theorem within_main :
    ∀ (parent : IPv4Net) (s : List StructItem) (res : Result),
      WithinAuxP parent s res := by
  apply computeAux.induct WithinAuxP WithinLoopP
  · intro parent s res hfind
    unfold WithinAuxP
    intro res2 h
    unfold computeAux at h
    simp only [hfind] at h
    simp at h
  · intro parent s res p hfind hcap
    unfold WithinAuxP
    intro res2 h
    unfold computeAux at h
    simp only [hfind, if_pos hcap] at h
    simp at h
  · intro parent s res p hfind hcap ih
    unfold WithinAuxP
    unfold WithinLoopP at ih
    intro res2 h e he
    unfold computeAux at h
    simp only [hfind, if_neg hcap] at h
    rcases ih res2 h e he with h1 | ⟨j, c, hij, hc, hw⟩
    · exact Or.inl h1
    · exact Or.inr (withinB_trans hw (subnetsList_within (by omega) hc))
  · intro children i res
    unfold WithinLoopP
    intro res2 h e he
    unfold computeLoop at h
    simp only [Except.ok.injEq] at h
    subst h
    exact Or.inl he
  · intro children i res item rest hnone
    unfold WithinLoopP
    intro res2 h
    unfold computeLoop at h
    simp only [hnone] at h
    simp at h
  · intro children i res rest child hchild ih
    unfold WithinLoopP at ih ⊢
    intro res2 h e he
    unfold computeLoop at h
    simp only [hchild] at h
    rcases ih res2 h e he with h1 | ⟨j, c, hij, hc, hw⟩
    · exact Or.inl h1
    · exact Or.inr ⟨j, c, by omega, hc, hw⟩
  · intro children i res rest child hchild ih
    unfold WithinLoopP at ih ⊢
    intro res2 h e he
    unfold computeLoop at h
    simp only [hchild, if_pos rfl] at h
    rcases ih res2 h e he with h1 | ⟨j, c, hij, hc, hw⟩
    · exact Or.inl h1
    · exact Or.inr ⟨j, c, by omega, hc, hw⟩
  · intro children i res rest child hchild id hid ih
    unfold WithinLoopP at ih ⊢
    intro res2 h e he
    unfold computeLoop at h
    simp only [hchild, if_neg hid] at h
    rcases ih res2 h e he with h1 | ⟨j, c, hij, hc, hw⟩
    · rcases mem_dictInsert h1 with h2 | h2
      · exact Or.inl h2
      · subst h2
        exact Or.inr ⟨i, child, le_refl _, hchild, withinB_refl child⟩
    · exact Or.inr ⟨j, c, by omega, hc, hw⟩
  · intro children i res rest child hchild count ih
    unfold WithinLoopP at ih ⊢
    intro res2 h e he
    unfold computeLoop at h
    simp only [hchild] at h
    rcases ih res2 h e he with h1 | ⟨j, c, hij, hc, hw⟩
    · exact Or.inl h1
    · exact Or.inr ⟨j, c, by omega, hc, hw⟩
  · intro children i res rest child hchild g res2i hgok ihaux ihloop
    unfold WithinAuxP at ihaux
    unfold WithinLoopP at ihloop ⊢
    intro res2 h e he
    unfold computeLoop at h
    simp only [hchild, hgok] at h
    rcases ihloop res2 h e he with h1 | ⟨j, c, hij, hc, hw⟩
    · rcases ihaux res2i hgok e h1 with h2 | h2
      · exact Or.inl h2
      · exact Or.inr ⟨i, child, le_refl _, hchild, h2⟩
    · exact Or.inr ⟨j, c, by omega, hc, hw⟩
  · intro children i res rest child hchild g e2 hgerr ihaux
    unfold WithinLoopP
    intro res2 h
    unfold computeLoop at h
    simp only [hchild, hgerr] at h
    simp at h

/-- New entries of a successful `_compute` call lie within the parent. -/
theorem computeAux_within {parent : IPv4Net} {s : List StructItem}
    {res res2 : Result} (h : computeAux parent s res = .ok res2) :
    ∀ e ∈ res2, e ∈ res ∨ withinB e.2 parent :=
  within_main parent s res res2 h

/-! ## The produced keys are exactly the leaf identifiers -/

theorem keys_main :
    ∀ (parent : IPv4Net) (s : List StructItem) (res : Result),
      KeysAuxP parent s res := by
  apply computeAux.induct KeysAuxP KeysLoopP
  · intro parent s res hfind
    unfold KeysAuxP
    intro res2 h
    unfold computeAux at h
    simp only [hfind] at h
    simp at h
  · intro parent s res p hfind hcap
    unfold KeysAuxP
    intro res2 h
    unfold computeAux at h
    simp only [hfind, if_pos hcap] at h
    simp at h
  · intro parent s res p hfind hcap ih
    unfold KeysAuxP
    unfold KeysLoopP at ih
    intro res2 h hnodup hfresh
    unfold computeAux at h
    simp only [hfind, if_neg hcap] at h
    exact ih res2 h hnodup hfresh
  · intro children i res
    unfold KeysLoopP
    intro res2 h hnodup hfresh
    unfold computeLoop at h
    simp only [Except.ok.injEq] at h
    subst h
    rw [leafIds_nil, List.append_nil]
  · intro children i res item rest hnone
    unfold KeysLoopP
    intro res2 h
    unfold computeLoop at h
    simp only [hnone] at h
    simp at h
  · intro children i res rest child hchild ih
    unfold KeysLoopP at ih ⊢
    intro res2 h hnodup hfresh
    unfold computeLoop at h
    simp only [hchild] at h
    rw [leafIds_cons] at hnodup hfresh ⊢
    simp only [itemLeafIds, List.nil_append] at hnodup hfresh ⊢
    exact ih res2 h hnodup hfresh
  · intro children i res rest child hchild ih
    unfold KeysLoopP at ih ⊢
    intro res2 h hnodup hfresh
    unfold computeLoop at h
    simp only [hchild, if_pos rfl] at h
    rw [leafIds_cons] at hnodup hfresh ⊢
    simp only [itemLeafIds, if_pos rfl, List.nil_append] at hnodup hfresh ⊢
    exact ih res2 h hnodup hfresh
  · intro children i res rest child hchild id hid ih
    unfold KeysLoopP at ih ⊢
    intro res2 h hnodup hfresh
    unfold computeLoop at h
    simp only [hchild, if_neg hid] at h
    rw [leafIds_cons] at hnodup hfresh ⊢
    simp only [itemLeafIds, if_neg hid, List.singleton_append] at hnodup hfresh ⊢
    rw [List.nodup_cons] at hnodup
    have hidfresh : id ∉ res.map Prod.fst := by
      intro hmem
      exact hfresh id hmem (List.mem_cons_self _ _)
    have hkeys : (dictInsert res id child).map Prod.fst = res.map Prod.fst ++ [id] := by
      rw [dictInsert_of_fresh child hidfresh]
      simp
    have hfresh2 : ∀ k ∈ (dictInsert res id child).map Prod.fst, k ∉ leafIds rest := by
      rw [hkeys]
      intro k hk
      rcases List.mem_append.mp hk with h2 | h2
      · intro hmem
        exact hfresh k h2 (List.mem_cons_of_mem _ hmem)
      · rw [List.mem_singleton] at h2
        subst h2
        exact hnodup.1
    rw [ih res2 h hnodup.2 hfresh2, hkeys, List.append_assoc, List.singleton_append]
  · intro children i res rest child hchild count ih
    unfold KeysLoopP at ih ⊢
    intro res2 h hnodup hfresh
    unfold computeLoop at h
    simp only [hchild] at h
    rw [leafIds_cons] at hnodup hfresh ⊢
    simp only [itemLeafIds, List.nil_append] at hnodup hfresh ⊢
    exact ih res2 h hnodup hfresh
  · intro children i res rest child hchild g res2i hgok ihaux ihloop
    unfold KeysAuxP at ihaux
    unfold KeysLoopP at ihloop ⊢
    intro res2 h hnodup hfresh
    unfold computeLoop at h
    simp only [hchild, hgok] at h
    rw [leafIds_cons] at hnodup hfresh ⊢
    simp only [itemLeafIds] at hnodup hfresh ⊢
    rw [List.nodup_append] at hnodup
    have hfreshg : ∀ k ∈ res.map Prod.fst, k ∉ leafIds g := by
      intro k hk hmem
      exact hfresh k hk (List.mem_append_left _ hmem)
    have hkeysi := ihaux res2i hgok hnodup.1 hfreshg
    have hfresh2 : ∀ k ∈ res2i.map Prod.fst, k ∉ leafIds rest := by
      rw [hkeysi]
      intro k hk
      rcases List.mem_append.mp hk with h2 | h2
      · intro hmem
        exact hfresh k h2 (List.mem_append_right _ hmem)
      · exact hnodup.2.2 h2
    rw [ihloop res2 h hnodup.2.1 hfresh2, hkeysi, List.append_assoc]
  · intro children i res rest child hchild g e2 hgerr ihaux
    unfold KeysLoopP
    intro res2 h
    unfold computeLoop at h
    simp only [hchild, hgerr] at h
    simp at h

/-- On a successful `_compute` call with duplicate-free leaf identifiers
all fresh for the dict, the keys produced are the starting keys followed
by the leaf identifiers in pre-order. -/
theorem computeAux_keys {parent : IPv4Net} {s : List StructItem}
    {res res2 : Result} (h : computeAux parent s res = .ok res2)
    (hnodup : (leafIds s).Nodup)
    (hfresh : ∀ k ∈ res.map Prod.fst, k ∉ leafIds s) :
    res2.map Prod.fst = res.map Prod.fst ++ leafIds s :=
  keys_main parent s res res2 h hnodup hfresh

/-! ## Recorded keys survive, also across exceptions -/

theorem keepkeys_main :
    ∀ (parent : IPv4Net) (s : List StructItem) (res : Result),
      KeepKeysAuxP parent s res := by
  apply computeAux.induct KeepKeysAuxP KeepKeysLoopP
  · intro parent s res hfind
    unfold KeepKeysAuxP
    intro k hk
    unfold computeAux
    simp only [hfind, stateOf]
    exact hk
  · intro parent s res p hfind hcap
    unfold KeepKeysAuxP
    intro k hk
    unfold computeAux
    simp only [hfind, if_pos hcap, stateOf]
    exact hk
  · intro parent s res p hfind hcap ih
    unfold KeepKeysAuxP
    unfold KeepKeysLoopP at ih
    intro k hk
    unfold computeAux
    simp only [hfind, if_neg hcap]
    exact ih k hk
  · intro children i res
    unfold KeepKeysLoopP
    intro k hk
    unfold computeLoop
    simp only [stateOf]
    exact hk
  · intro children i res item rest hnone
    unfold KeepKeysLoopP
    intro k hk
    unfold computeLoop
    simp only [hnone, stateOf]
    exact hk
  · intro children i res rest child hchild ih
    unfold KeepKeysLoopP at ih ⊢
    intro k hk
    unfold computeLoop
    simp only [hchild]
    exact ih k hk
  · intro children i res rest child hchild ih
    unfold KeepKeysLoopP at ih ⊢
    intro k hk
    unfold computeLoop
    simp only [hchild, if_pos rfl]
    exact ih k hk
  · intro children i res rest child hchild id hid ih
    unfold KeepKeysLoopP at ih ⊢
    intro k hk
    unfold computeLoop
    simp only [hchild, if_neg hid]
    exact ih k (dictLookup_isSome_dictInsert hk)
  · intro children i res rest child hchild count ih
    unfold KeepKeysLoopP at ih ⊢
    intro k hk
    unfold computeLoop
    simp only [hchild]
    exact ih k hk
  · intro children i res rest child hchild g res2i hgok ihaux ihloop
    unfold KeepKeysAuxP at ihaux
    unfold KeepKeysLoopP at ihloop ⊢
    intro k hk
    unfold computeLoop
    simp only [hchild, hgok]
    have h1 := ihaux k hk
    rw [hgok] at h1
    simp only [stateOf] at h1
    exact ihloop k h1
  · intro children i res rest child hchild g e2 hgerr ihaux
    unfold KeepKeysAuxP at ihaux
    unfold KeepKeysLoopP
    intro k hk
    unfold computeLoop
    simp only [hchild, hgerr]
    have h1 := ihaux k hk
    rw [hgerr] at h1
    exact h1

/-! ## The only exceptions are ValueError and IndexError -/

theorem errkind_main :
    ∀ (parent : IPv4Net) (s : List StructItem) (res : Result),
      ErrKindAuxP parent s res := by
  apply computeAux.induct ErrKindAuxP ErrKindLoopP
  · intro parent s res hfind
    unfold ErrKindAuxP
    intro e st h
    unfold computeAux at h
    simp only [hfind, Except.error.injEq, Prod.mk.injEq] at h
    exact Or.inl ⟨_, h.1.symm⟩
  · intro parent s res p hfind hcap
    unfold ErrKindAuxP
    intro e st h
    unfold computeAux at h
    simp only [hfind, if_pos hcap, Except.error.injEq, Prod.mk.injEq] at h
    exact Or.inl ⟨_, h.1.symm⟩
  · intro parent s res p hfind hcap ih
    unfold ErrKindAuxP
    unfold ErrKindLoopP at ih
    intro e st h
    unfold computeAux at h
    simp only [hfind, if_neg hcap] at h
    exact ih e st h
  · intro children i res
    unfold ErrKindLoopP
    intro e st h
    unfold computeLoop at h
    simp at h
  · intro children i res item rest hnone
    unfold ErrKindLoopP
    intro e st h
    unfold computeLoop at h
    simp only [hnone, Except.error.injEq, Prod.mk.injEq] at h
    exact Or.inr h.1.symm
  · intro children i res rest child hchild ih
    unfold ErrKindLoopP at ih ⊢
    intro e st h
    unfold computeLoop at h
    simp only [hchild] at h
    exact ih e st h
  · intro children i res rest child hchild ih
    unfold ErrKindLoopP at ih ⊢
    intro e st h
    unfold computeLoop at h
    simp only [hchild, if_pos rfl] at h
    exact ih e st h
  · intro children i res rest child hchild id hid ih
    unfold ErrKindLoopP at ih ⊢
    intro e st h
    unfold computeLoop at h
    simp only [hchild, if_neg hid] at h
    exact ih e st h
  · intro children i res rest child hchild count ih
    unfold ErrKindLoopP at ih ⊢
    intro e st h
    unfold computeLoop at h
    simp only [hchild] at h
    exact ih e st h
  · intro children i res rest child hchild g res2i hgok ihaux ihloop
    unfold ErrKindLoopP at ihloop ⊢
    intro e st h
    unfold computeLoop at h
    simp only [hchild, hgok] at h
    exact ihloop e st h
  · intro children i res rest child hchild g e2 hgerr ihaux
    unfold ErrKindAuxP at ihaux
    unfold ErrKindLoopP
    intro e st h
    unfold computeLoop at h
    simp only [hchild, hgerr, Except.error.injEq] at h
    subst h
    exact ihaux e st hgerr

/-! ## Pairwise disjointness of the produced blocks -/

theorem pairwise_main :
    ∀ (parent : IPv4Net) (s : List StructItem) (res : Result),
      PairwiseAuxP parent s res := by
  apply computeAux.induct PairwiseAuxP PairwiseLoopP
  · intro parent s res hfind
    unfold PairwiseAuxP
    intro res2 h
    unfold computeAux at h
    simp only [hfind] at h
    simp at h
  · intro parent s res p hfind hcap
    unfold PairwiseAuxP
    intro res2 h
    unfold computeAux at h
    simp only [hfind, if_pos hcap] at h
    simp at h
  · intro parent s res p hfind hcap ih
    unfold PairwiseAuxP
    unfold PairwiseLoopP at ih
    intro res2 h hpw hdisj
    unfold computeAux at h
    simp only [hfind, if_neg hcap] at h
    refine ih res2 h hpw ?_ ?_
    · intro e he j c hij hc
      exact disjointB_symm
        (disjointB_mono_left (subnetsList_within (by omega) hc) (disjointB_symm (hdisj e he)))
    · intro j1 j2 c1 c2 hj1 hj2 hne hc1 hc2
      exact subnetsList_disjoint (by omega) hne hc1 hc2
  · intro children i res
    unfold PairwiseLoopP
    intro res2 h hpw hdisj hch
    unfold computeLoop at h
    simp only [Except.ok.injEq] at h
    subst h
    exact hpw
  · intro children i res item rest hnone
    unfold PairwiseLoopP
    intro res2 h
    unfold computeLoop at h
    simp only [hnone] at h
    simp at h
  · intro children i res rest child hchild ih
    unfold PairwiseLoopP at ih ⊢
    intro res2 h hpw hdisj hch
    unfold computeLoop at h
    simp only [hchild] at h
    refine ih res2 h hpw (fun e he j c hij hc => hdisj e he j c (by omega) hc)
      (fun j1 j2 c1 c2 hj1 hj2 hne hc1 hc2 => hch j1 j2 c1 c2 (by omega) (by omega) hne hc1 hc2)
  · intro children i res rest child hchild ih
    unfold PairwiseLoopP at ih ⊢
    intro res2 h hpw hdisj hch
    unfold computeLoop at h
    simp only [hchild, if_pos rfl] at h
    refine ih res2 h hpw (fun e he j c hij hc => hdisj e he j c (by omega) hc)
      (fun j1 j2 c1 c2 hj1 hj2 hne hc1 hc2 => hch j1 j2 c1 c2 (by omega) (by omega) hne hc1 hc2)
  · intro children i res rest child hchild id hid ih
    unfold PairwiseLoopP at ih ⊢
    intro res2 h hpw hdisj hch
    unfold computeLoop at h
    simp only [hchild, if_neg hid] at h
    have hpw2 : (dictInsert res id child).Pairwise entDisj := by
      refine pairwise_dictInsert hpw ?_
      intro e he
      have hd := hdisj e he i child (le_refl _) hchild
      exact ⟨hd, disjointB_symm hd⟩
    refine ih res2 h hpw2 ?_
      (fun j1 j2 c1 c2 hj1 hj2 hne hc1 hc2 => hch j1 j2 c1 c2 (by omega) (by omega) hne hc1 hc2)
    intro e he j c hij hc
    rcases mem_dictInsert he with h2 | h2
    · exact hdisj e h2 j c (by omega) hc
    · subst h2
      exact hch i j child c (le_refl _) (by omega) (by omega) hchild hc
  · intro children i res rest child hchild count ih
    unfold PairwiseLoopP at ih ⊢
    intro res2 h hpw hdisj hch
    unfold computeLoop at h
    simp only [hchild] at h
    refine ih res2 h hpw (fun e he j c hij hc => hdisj e he j c (by omega) hc)
      (fun j1 j2 c1 c2 hj1 hj2 hne hc1 hc2 => hch j1 j2 c1 c2 (by omega) (by omega) hne hc1 hc2)
  · intro children i res rest child hchild g res2i hgok ihaux ihloop
    unfold PairwiseAuxP at ihaux
    unfold PairwiseLoopP at ihloop ⊢
    intro res2 h hpw hdisj hch
    unfold computeLoop at h
    simp only [hchild, hgok] at h
    have hpw2 : res2i.Pairwise entDisj :=
      ihaux res2i hgok hpw (fun e he => hdisj e he i child (le_refl _) hchild)
    refine ihloop res2 h hpw2 ?_
      (fun j1 j2 c1 c2 hj1 hj2 hne hc1 hc2 => hch j1 j2 c1 c2 (by omega) (by omega) hne hc1 hc2)
    intro e he j c hij hc
    rcases computeAux_within hgok e he with h2 | h2
    · exact hdisj e h2 j c (by omega) hc
    · exact disjointB_mono_left h2
        (hch i j child c (le_refl _) (by omega) (by omega) hchild hc)
  · intro children i res rest child hchild g e2 hgerr ihaux
    unfold PairwiseLoopP
    intro res2 h
    unfold computeLoop at h
    simp only [hchild, hgerr] at h
    simp at h

/-! ## The run status is independent of identifiers and dict state -/

theorem rename_main :
    ∀ (parent : IPv4Net) (s : List StructItem) (res : Result),
      RenameAuxP parent s res := by
  apply computeAux.induct RenameAuxP RenameLoopP
  · intro parent s res hfind
    unfold RenameAuxP
    intro f res1
    unfold computeAux
    rw [find_structure_len_rename]
    simp only [hfind, statusOf]
  · intro parent s res p hfind hcap
    unfold RenameAuxP
    intro f res1
    unfold computeAux
    rw [find_structure_len_rename]
    simp only [hfind, if_pos hcap, statusOf]
  · intro parent s res p hfind hcap ih
    unfold RenameAuxP
    unfold RenameLoopP at ih
    intro f res1
    unfold computeAux
    rw [find_structure_len_rename]
    simp only [hfind, if_neg hcap]
    exact ih f res1
  · intro children i res
    unfold RenameLoopP
    intro f res1
    simp only [renameList]
    unfold computeLoop
    simp only [statusOf]
  · intro children i res item rest hnone
    unfold RenameLoopP
    intro f res1
    simp only [renameList]
    unfold computeLoop
    simp only [hnone, statusOf]
  · intro children i res rest child hchild ih
    unfold RenameLoopP at ih ⊢
    intro f res1
    simp only [renameList, renameItem]
    unfold computeLoop
    simp only [hchild]
    exact ih f res1
  · intro children i res rest child hchild ih
    unfold RenameLoopP at ih ⊢
    intro f res1
    simp only [renameList, renameItem]
    unfold computeLoop
    simp only [hchild, if_pos rfl]
    by_cases hf : f "__placeholder__" = "__placeholder__"
    · rw [if_pos hf]
      exact ih f res1
    · rw [if_neg hf]
      exact ih f _
  · intro children i res rest child hchild id hid ih
    unfold RenameLoopP at ih ⊢
    intro f res1
    simp only [renameList, renameItem]
    unfold computeLoop
    simp only [hchild, if_neg hid]
    by_cases hf : f id = "__placeholder__"
    · rw [if_pos hf]
      exact ih f res1
    · rw [if_neg hf]
      exact ih f _
  · intro children i res rest child hchild count ih
    unfold RenameLoopP at ih ⊢
    intro f res1
    simp only [renameList, renameItem]
    unfold computeLoop
    simp only [hchild]
    exact ih f res1
  · intro children i res rest child hchild g res2i hgok ihaux ihloop
    unfold RenameAuxP at ihaux
    unfold RenameLoopP at ihloop ⊢
    intro f res1
    simp only [renameList, renameItem]
    unfold computeLoop
    simp only [hchild]
    have hst : statusOf (computeAux child (renameList f g) res1) = none := by
      rw [ihaux f res1, hgok]
      simp [statusOf]
    rcases statusOf_eq_none.mp hst with ⟨m, hm⟩
    simp only [hm, hgok]
    exact ihloop f m
  · intro children i res rest child hchild g e2 hgerr ihaux
    unfold RenameAuxP at ihaux
    unfold RenameLoopP
    intro f res1
    simp only [renameList, renameItem]
    unfold computeLoop
    simp only [hchild]
    obtain ⟨epy, est⟩ := e2
    have hst : statusOf (computeAux child (renameList f g) res1) = some epy := by
      rw [ihaux f res1, hgerr]
      simp [statusOf]
    rcases statusOf_eq_some.mp hst with ⟨st1, hst1⟩
    simp only [hst1, hgerr, statusOf]

/-! ## With positive placeholder counts there is no IndexError -/

theorem noidx_main :
    ∀ (parent : IPv4Net) (s : List StructItem) (res : Result),
      NoIdxAuxP parent s res := by
  apply computeAux.induct NoIdxAuxP NoIdxLoopP
  · intro parent s res hfind
    unfold NoIdxAuxP
    intro hcounts e st h
    unfold computeAux at h
    simp only [hfind, Except.error.injEq, Prod.mk.injEq] at h
    rw [← h.1]
    simp
  · intro parent s res p hfind hcap
    unfold NoIdxAuxP
    intro hcounts e st h
    unfold computeAux at h
    simp only [hfind, if_pos hcap, Except.error.injEq, Prod.mk.injEq] at h
    rw [← h.1]
    simp
  · intro parent s res p hfind hcap ih
    unfold NoIdxAuxP
    unfold NoIdxLoopP at ih
    intro hcounts e st h
    unfold computeAux at h
    simp only [hfind, if_neg hcap] at h
    have hlen : (s.length : Int) ≤ 2 ^ p :=
      le_trans (length_le_structure_len hcounts) (findPfx_le hfind)
    have hlen2 : s.length ≤ 2 ^ p := by
      have h2 : ((2 ^ p : Nat) : Int) = 2 ^ p := by push_cast; rfl
      omega
    have hbound : 0 + s.length ≤ (subnetsList parent p).length := by
      rw [length_subnetsList]
      by_cases hp : parent.plen = 32
      · rw [if_pos hp]
        have hp0 : p = 0 := by omega
        subst hp0
        simp at hlen2
        omega
      · rw [if_neg hp]
        omega
    exact ih hcounts hbound e st h
  · intro children i res
    unfold NoIdxLoopP
    intro hcounts hbound e st h
    unfold computeLoop at h
    simp at h
  · intro children i res item rest hnone
    unfold NoIdxLoopP
    intro hcounts hbound e st h
    rw [List.getElem?_eq_none_iff] at hnone
    simp only [List.length_cons] at hbound
    omega
  · intro children i res rest child hchild ih
    unfold NoIdxLoopP at ih ⊢
    intro hcounts hbound e st h
    unfold computeLoop at h
    simp only [hchild] at h
    unfold listCountsOk at hcounts
    rw [Bool.and_eq_true] at hcounts
    simp only [List.length_cons] at hbound
    exact ih hcounts.2 (by omega) e st h
  · intro children i res rest child hchild ih
    unfold NoIdxLoopP at ih ⊢
    intro hcounts hbound e st h
    unfold computeLoop at h
    simp only [hchild, if_pos rfl] at h
    unfold listCountsOk at hcounts
    rw [Bool.and_eq_true] at hcounts
    simp only [List.length_cons] at hbound
    exact ih hcounts.2 (by omega) e st h
  · intro children i res rest child hchild id hid ih
    unfold NoIdxLoopP at ih ⊢
    intro hcounts hbound e st h
    unfold computeLoop at h
    simp only [hchild, if_neg hid] at h
    unfold listCountsOk at hcounts
    rw [Bool.and_eq_true] at hcounts
    simp only [List.length_cons] at hbound
    exact ih hcounts.2 (by omega) e st h
  · intro children i res rest child hchild count ih
    unfold NoIdxLoopP at ih ⊢
    intro hcounts hbound e st h
    unfold computeLoop at h
    simp only [hchild] at h
    unfold listCountsOk at hcounts
    rw [Bool.and_eq_true] at hcounts
    simp only [List.length_cons] at hbound
    exact ih hcounts.2 (by omega) e st h
  · intro children i res rest child hchild g res2i hgok ihaux ihloop
    unfold NoIdxLoopP at ihloop ⊢
    intro hcounts hbound e st h
    unfold computeLoop at h
    simp only [hchild, hgok] at h
    unfold listCountsOk at hcounts
    rw [Bool.and_eq_true] at hcounts
    simp only [List.length_cons] at hbound
    exact ihloop hcounts.2 (by omega) e st h
  · intro children i res rest child hchild g e2 hgerr ihaux
    unfold NoIdxAuxP at ihaux
    unfold NoIdxLoopP
    intro hcounts hbound e st h
    unfold computeLoop at h
    simp only [hchild, hgerr, Except.error.injEq] at h
    subst h
    unfold listCountsOk at hcounts
    rw [Bool.and_eq_true] at hcounts
    have hg : listCountsOk g = true := by
      have h2 := hcounts.1
      unfold itemCountsOk at h2
      exact h2
    exact ihaux hg e st hgerr

/-! ## Decimal rendering and parsing round-trip -/

theorem decDigit_digitChar {d : Nat} (h : d < 10) : decDigit (digitChar d) = some d := by
  interval_cases d <;> rfl

theorem digitChar_toNat {d : Nat} (h : d < 10) : (digitChar d).toNat = 48 + d := by
  interval_cases d <;> rfl

theorem natDigits_ne_nil (n : Nat) : natDigits n ≠ [] := by
  unfold natDigits
  split
  · simp
  · simp

theorem natDigits_digits : ∀ n : Nat, ∀ c ∈ natDigits n, ∃ d, d < 10 ∧ c = digitChar d := by
  intro n
  induction n using Nat.strong_induction_on with
  | _ n ih =>
    intro c hc
    by_cases h : n < 10
    · rw [natDigits, dif_pos h] at hc
      rw [List.mem_singleton] at hc
      exact ⟨n, h, hc⟩
    · rw [natDigits, dif_neg h] at hc
      rcases List.mem_append.mp hc with h2 | h2
      · exact ih (n / 10) (by omega) c h2
      · rw [List.mem_singleton] at h2
        exact ⟨n % 10, Nat.mod_lt _ (by omega), h2⟩

theorem natDigits_ne_of_low {n : Nat} {sep : Char} (hsep : sep.toNat < 48) :
    ∀ c ∈ natDigits n, c ≠ sep := by
  intro c hc he
  rcases natDigits_digits n c hc with ⟨d, hd, rfl⟩
  have h1 := digitChar_toNat hd
  rw [he] at h1
  omega

theorem parseDecAux_append (acc : Nat) (xs ys : List Char) :
    parseDecAux acc (xs ++ ys) =
      match parseDecAux acc xs with
      | some a => parseDecAux a ys
      | none => none := by
  induction xs generalizing acc with
  | nil => simp [parseDecAux]
  | cons c rest ih =>
    simp only [List.cons_append, parseDecAux]
    cases decDigit c with
    | some d => exact ih (acc * 10 + d)
    | none => rfl

theorem parseDecAux_natDigits :
    ∀ n acc : Nat, parseDecAux acc (natDigits n) =
      some (acc * 10 ^ (natDigits n).length + n) := by
  intro n
  induction n using Nat.strong_induction_on with
  | _ n ih =>
    intro acc
    by_cases h : n < 10
    · rw [natDigits, dif_pos h]
      simp only [parseDecAux, decDigit_digitChar h, List.length_cons, List.length_nil,
        Nat.zero_add, pow_one]
    · rw [natDigits, dif_neg h]
      rw [parseDecAux_append, ih (n / 10) (by omega) acc]
      simp only [List.length_append, List.length_cons, List.length_nil, Nat.zero_add]
      have hm : n % 10 < 10 := Nat.mod_lt _ (by omega)
      simp only [parseDecAux, decDigit_digitChar hm]
      congr 1
      rw [pow_succ, ← mul_assoc]
      generalize acc * 10 ^ (natDigits (n / 10)).length = X
      omega

theorem parseDecChars_natDigits (n : Nat) : parseDecChars (natDigits n) = some n := by
  cases hd : natDigits n with
  | nil => exact absurd hd (natDigits_ne_nil n)
  | cons c rest =>
    have h2 := parseDecAux_natDigits n 0
    rw [hd] at h2
    show parseDecAux 0 (c :: rest) = some n
    rw [h2]
    simp

/-! ## Splitting on separators -/

theorem splitOnCharAux_no_sep {sep : Char} :
    ∀ {xs : List Char} (acc : List Char), (∀ c ∈ xs, c ≠ sep) →
      splitOnCharAux sep xs acc = [acc.reverse ++ xs] := by
  intro xs
  induction xs with
  | nil => intro acc h; simp [splitOnCharAux]
  | cons c rest ih =>
    intro acc h
    have hc : c ≠ sep := h c (List.mem_cons_self _ _)
    simp only [splitOnCharAux, if_neg hc]
    rw [ih (c :: acc) (fun c2 hc2 => h c2 (List.mem_cons_of_mem _ hc2))]
    simp

theorem splitOnCharAux_sep {sep : Char} :
    ∀ {xs : List Char} (ys acc : List Char), (∀ c ∈ xs, c ≠ sep) →
      splitOnCharAux sep (xs ++ sep :: ys) acc =
        (acc.reverse ++ xs) :: splitOnCharAux sep ys [] := by
  intro xs
  induction xs with
  | nil =>
    intro ys acc h
    simp [splitOnCharAux]
  | cons c rest ih =>
    intro ys acc h
    have hc : c ≠ sep := h c (List.mem_cons_self _ _)
    simp only [List.cons_append, splitOnCharAux, if_neg hc, List.append_eq]
    rw [ih ys (c :: acc) (fun c2 hc2 => h c2 (List.mem_cons_of_mem _ hc2))]
    simp

/-! ## Round-tripping rendered addresses and networks -/

theorem splitOnChar_addrChars (a : Nat) :
    splitOnChar '.' (addrChars a) =
      [natDigits (a / 2 ^ 24 % 256), natDigits (a / 2 ^ 16 % 256),
        natDigits (a / 2 ^ 8 % 256), natDigits (a % 256)] := by
  unfold splitOnChar addrChars
  simp only [List.cons_append, List.append_assoc]
  rw [splitOnCharAux_sep _ _ (natDigits_ne_of_low (by decide)),
    splitOnCharAux_sep _ _ (natDigits_ne_of_low (by decide)),
    splitOnCharAux_sep _ _ (natDigits_ne_of_low (by decide)),
    splitOnCharAux_no_sep _ (natDigits_ne_of_low (by decide))]
  simp

theorem parseOctet_natDigits {o : Nat} (h : o ≤ 255) :
    parseOctet (natDigits o) = some o := by
  unfold parseOctet
  rw [parseDecChars_natDigits]
  simp [h]

theorem parseAddr_addrChars {a : Nat} (h : a < 2 ^ 32) :
    parseAddr (addrChars a) = some a := by
  have h256 : (0 : Nat) < 256 := by norm_num
  have o1 : a / 2 ^ 24 % 256 ≤ 255 := by have := Nat.mod_lt (a / 2 ^ 24) h256; omega
  have o2 : a / 2 ^ 16 % 256 ≤ 255 := by have := Nat.mod_lt (a / 2 ^ 16) h256; omega
  have o3 : a / 2 ^ 8 % 256 ≤ 255 := by have := Nat.mod_lt (a / 2 ^ 8) h256; omega
  have o4 : a % 256 ≤ 255 := by have := Nat.mod_lt a h256; omega
  unfold parseAddr
  simp only [splitOnChar_addrChars, parseOctet_natDigits o1, parseOctet_natDigits o2,
    parseOctet_natDigits o3, parseOctet_natDigits o4]
  congr 1
  have e1 : (2 : Nat) ^ 24 = 16777216 := by norm_num
  have e2 : (2 : Nat) ^ 16 = 65536 := by norm_num
  have e3 : (2 : Nat) ^ 8 = 256 := by norm_num
  have e4 : (2 : Nat) ^ 32 = 4294967296 := by norm_num
  rw [e1, e2, e3] at *
  rw [e4] at h
  omega

theorem addrChars_chars (a : Nat) :
    ∀ c ∈ addrChars a, (∃ d, d < 10 ∧ c = digitChar d) ∨ c = '.' := by
  intro c hc
  unfold addrChars at hc
  rcases List.mem_append.mp hc with h1 | h1
  · rcases List.mem_append.mp h1 with h2 | h2
    · rcases List.mem_append.mp h2 with h3 | h3
      · exact Or.inl (natDigits_digits _ c h3)
      · rcases List.mem_cons.mp h3 with h4 | h4
        · exact Or.inr h4
        · exact Or.inl (natDigits_digits _ c h4)
    · rcases List.mem_cons.mp h2 with h3 | h3
      · exact Or.inr h3
      · exact Or.inl (natDigits_digits _ c h3)
  · rcases List.mem_cons.mp h1 with h2 | h2
    · exact Or.inr h2
    · exact Or.inl (natDigits_digits _ c h2)

theorem addrChars_ne_slash (a : Nat) : ∀ c ∈ addrChars a, c ≠ '/' := by
  intro c hc he
  rcases addrChars_chars a c hc with ⟨d, hd, rfl⟩ | hdot
  · have h1 := digitChar_toNat hd
    rw [he] at h1
    have h2 : ('/' : Char).toNat = 47 := rfl
    omega
  · rw [hdot] at he
    exact absurd he (by decide)

theorem splitOnChar_netChars (n : IPv4Net) :
    splitOnChar '/' (netChars n) = [addrChars n.base, natDigits n.plen] := by
  unfold splitOnChar netChars
  rw [splitOnCharAux_sep _ _ (addrChars_ne_slash n.base),
    splitOnCharAux_no_sep _ (natDigits_ne_of_low (by decide))]
  simp

theorem parseCIDR_netStr {n : IPv4Net} (h : validNet n) :
    parseCIDR (netStr n) = some n := by
  unfold parseCIDR netStr
  simp only [splitOnChar_netChars, parseAddr_addrChars h.1, parseDecChars_natDigits]
  rw [if_pos ⟨h.2.1, h.2.2⟩]

/-! ## `build_data` record fields come from the allocation -/

theorem buildData_fields {metadata : List (String × SubnetMetadata)} :
    ∀ {alloc : Result} {data : List SubnetInfo},
      buildData metadata alloc = .ok data →
      ∀ info ∈ data, ∃ e ∈ alloc, info.cidr = e.2 ∧
        info.first_address = addrStr e.2.base ∧
        info.last_address = addrStr (broadcastAddr e.2) := by
  intro alloc
  induction alloc with
  | nil =>
    intro data h info hinfo
    unfold buildData at h
    simp only [Except.ok.injEq] at h
    subst h
    simp at hinfo
  | cons e rest ih =>
    intro data h info hinfo
    obtain ⟨eid, ecidr⟩ := e
    unfold buildData at h
    cases hname : (metaGet metadata eid).name with
    | none =>
      simp only [hname] at h
      simp at h
    | some nm =>
      simp only [hname] at h
      cases hdesc : (metaGet metadata eid).description with
      | none =>
        simp only [hdesc] at h
        simp at h
      | some desc =>
        simp only [hdesc] at h
        cases hrest : buildData metadata rest with
        | error e2 =>
          simp only [hrest] at h
          simp at h
        | ok infos =>
          simp only [hrest, Except.ok.injEq] at h
          subst h
          rcases List.mem_cons.mp hinfo with h2 | h2
          · subst h2
            exact ⟨(eid, ecidr), List.mem_cons_self _ _, rfl, rfl, rfl⟩
          · rcases ih hrest info h2 with ⟨e2, he2, hf⟩
            exact ⟨e2, List.mem_cons_of_mem _ he2, hf⟩

/-! ## Helper facts for the claims -/

theorem computeAux_nil {net : IPv4Net} (h : net.plen ≤ 32) (res : Result) :
    computeAux net [] res = .ok res := by
  unfold computeAux
  have h0 : findPfx (find_structure_len []) = some 0 := by decide
  simp only [h0]
  rw [if_neg (by omega), computeLoop.eq_1]

/-! ## The claims -/

/-- C3: for every `n` in `[0, 2^32]`, `find_prefix(n)` returns the
smallest `p` with `2^p ≥ n` (in particular `0 ↦ 0`, `1 ↦ 0`, `2 ↦ 1`,
`3 ↦ 2`), and it raises the sizing `ValueError` exactly when no such `p`
exists in the range `[0, 32)` it scans. -/
theorem claim_C3_theorem : ∀ n : Nat, n ≤ 2 ^ 32 →
    (∀ p, findPfx (n : Int) = some p ↔
      (p < 32 ∧ (n : Int) ≤ 2 ^ p ∧ ∀ q, q < p → (2 : Int) ^ q < (n : Int))) ∧
    (findPfx (n : Int) = none ↔ ∀ q, q < 32 → (2 : Int) ^ q < (n : Int)) ∧
    findPfx 0 = some 0 ∧ findPfx 1 = some 0 ∧ findPfx 2 = some 1 ∧
    findPfx 3 = some 2 := by
  intro n hn
  exact ⟨fun p => findPfx_eq_some, findPfx_eq_none, by decide, by decide, by decide,
    by decide⟩

/-- C3 witness: instantiated at `n = 3`, `find_prefix` returns 2. -/
theorem claim_C3_witness : (3 : Nat) ≤ 2 ^ 32 ∧ findPfx ((3 : Nat) : Int) = some 2 :=
  ⟨by norm_num,
    ((claim_C3_theorem 3 (by norm_num)).1 2).mpr
      ⟨by norm_num, by norm_num, fun q hq => by interval_cases q <;> norm_num⟩⟩

/-- C7: an empty structure sequence yields slot count 0, needed prefix
bits 0, leaves the dict unchanged, and errors on no valid root (prefix
length 0–32); a `Group` with zero children behaves the same way for its
branch. -/
theorem claim_C7_theorem : ∀ net : IPv4Net, net.plen ≤ 32 →
    find_structure_len [] = 0 ∧ findPfx 0 = some 0 ∧
    (∀ res, computeAux net [] res = .ok res) ∧
    compute net [] = .ok [] ∧
    compute net [.group []] = .ok [] := by
  intro net hple
  refine ⟨rfl, by decide, fun res => computeAux_nil hple res, computeAux_nil hple [], ?_⟩
  unfold compute computeAux
  have h1 : findPfx (find_structure_len [StructItem.group []]) = some 0 := by decide
  simp only [h1]
  rw [if_neg (by omega)]
  have hchild : ∃ c, (subnetsList net 0)[0]? = some c ∧ c.plen ≤ 32 := by
    unfold subnetsList
    by_cases hp : net.plen = 32
    · rw [if_pos hp]
      exact ⟨net, rfl, hple⟩
    · rw [if_neg hp]
      refine ⟨⟨net.base + 0 * 2 ^ (32 - net.plen - 0), net.plen + 0⟩, ?_, by
        show net.plen + 0 ≤ 32
        omega⟩
      rw [show (2 : Nat) ^ 0 = 1 from rfl, show List.range 1 = [0] from rfl]
      rfl
  rcases hchild with ⟨c, hc, hcle⟩
  unfold computeLoop
  simp only [hc, computeAux_nil hcle]
  rw [computeLoop.eq_1]

/-- C7 witness: instantiated at the root `10.1.0.0/16`. -/
theorem claim_C7_witness :
    find_structure_len [] = 0 ∧ findPfx 0 = some 0 ∧
    (∀ res, computeAux ⟨167837696, 16⟩ [] res = .ok res) ∧
    compute ⟨167837696, 16⟩ [] = .ok [] ∧
    compute ⟨167837696, 16⟩ [.group []] = .ok [] :=
  claim_C7_theorem ⟨167837696, 16⟩ (by norm_num)

/-- C4 counterexample: with root `10.0.0.0/31` and structure
`["a", ["b", "c"]]` the nested group needs one more prefix bit than /32
allows, so the capacity `ValueError` is raised — but the observable result
dict at that moment already holds the entry recorded for the earlier
sibling leaf `"a"`, so the observable mapping is not empty as the claim
states. -/
theorem claim_C4_counterexample :
    compute ⟨167772160, 31⟩ [.str "a", .group [.str "b", .str "c"]] =
      .error (.valueError "Too many subnets", [("a", ⟨167772160, 32⟩)]) ∧
    [("a", (⟨167772160, 32⟩ : IPv4Net))] ≠ ([] : Result) := by
  constructor
  · simp [compute, computeAux, computeLoop, findPfx, findPfxAux, find_structure_len,
      itemWeight, subnetsList, dictInsert]
  · simp

/-- C4 (amended): when `prefix + parent.prefixlen > 32` at some level,
`_compute` raises the capacity `ValueError`; the raising level adds no
entry of its own (the carried dict state is exactly the state it was
called with), and entries already recorded anywhere remain present in the
observable dict state — the observable mapping is NOT cleared, so it need
not be empty. -/
theorem claim_C4_theorem :
    (∀ (parent : IPv4Net) (s : List StructItem) (res : Result) (p : Nat),
      findPfx (find_structure_len s) = some p → p + parent.plen > 32 →
      computeAux parent s res = .error (.valueError "Too many subnets", res)) ∧
    (∀ (parent : IPv4Net) (s : List StructItem) (res : Result) (k : String),
      (dictLookup res k).isSome →
      (dictLookup (stateOf (computeAux parent s res)) k).isSome) := by
  constructor
  · intro parent s res p hfind hcap
    unfold computeAux
    simp only [hfind]
    rw [if_pos hcap]
  · intro parent s res k hk
    exact keepkeys_main parent s res k hk

/-- C4 witness: a /32 root with two leaves trips the capacity check. -/
theorem claim_C4_witness :
    computeAux ⟨0, 32⟩ [.str "a", .str "b"] [] =
      .error (.valueError "Too many subnets", []) :=
  claim_C4_theorem.1 ⟨0, 32⟩ [.str "a", .str "b"] [] 1 (by decide) (by decide)

/-- C2 counterexample: with root `10.0.0.0/8` and single-leaf structure
`["a"]` the split uses 0 extra bits, so the leaf is assigned the root
block itself — contained in the root but not a STRICT descendant of it. -/
theorem claim_C2_counterexample :
    compute ⟨167772160, 8⟩ [.str "a"] = .ok [("a", ⟨167772160, 8⟩)] ∧
    ("a", (⟨167772160, 8⟩ : IPv4Net)) ∈ [("a", (⟨167772160, 8⟩ : IPv4Net))] ∧
    ¬ strictDescB ⟨167772160, 8⟩ ⟨167772160, 8⟩ := by
  refine ⟨?_, ?_, ?_⟩
  · simp [compute, computeAux, computeLoop, findPfx, findPfxAux, find_structure_len,
      itemWeight, subnetsList, dictInsert]
  · simp
  · decide

/-- C2 (amended): on every successful run with placeholder counts ≥ 1 and
duplicate-free identifiers, the assigned blocks are pairwise
non-overlapping, every assigned block is contained in the root block
(equality is possible, so not necessarily a strict descendant), and the
mapping has exactly one entry per leaf, keyed in pre-order; moreover at
every level of the recursion the entries a call adds are contained in
that call's parent block (the structural parent). -/
theorem claim_C2_theorem :
    (∀ (net : IPv4Net) (s : List StructItem) (m : Result),
      compute net s = .ok m → listCountsOk s = true → (leafIds s).Nodup →
      m.Pairwise entDisj ∧ (∀ e ∈ m, withinB e.2 net) ∧
      m.map Prod.fst = leafIds s) ∧
    (∀ (parent : IPv4Net) (s : List StructItem) (res m : Result),
      computeAux parent s res = .ok m → ∀ e ∈ m, e ∈ res ∨ withinB e.2 parent) := by
  constructor
  · intro net s m h hcounts hnodup
    refine ⟨?_, ?_, ?_⟩
    · exact pairwise_main net s [] m h (by simp) (by simp)
    · intro e he
      rcases computeAux_within h e he with h2 | h2
      · simp at h2
      · exact h2
    · have h2 := keys_main net s [] m h hnodup (by simp)
      simpa using h2
  · intro parent s res m h
    exact within_main parent s res m h

/-- C2 witness: the spec's own example — root `10.1.0.0/16` with three
leaves gives three non-overlapping /18 blocks inside the root. -/
theorem claim_C2_witness :
    List.Pairwise entDisj
      [("public", (⟨167837696, 18⟩ : IPv4Net)), ("private", ⟨167854080, 18⟩),
        ("data", ⟨167870464, 18⟩)] ∧
    (∀ e ∈ [("public", (⟨167837696, 18⟩ : IPv4Net)), ("private", ⟨167854080, 18⟩),
        ("data", ⟨167870464, 18⟩)], withinB e.2 ⟨167837696, 16⟩) ∧
    ([("public", (⟨167837696, 18⟩ : IPv4Net)), ("private", ⟨167854080, 18⟩),
        ("data", ⟨167870464, 18⟩)]).map Prod.fst =
      leafIds [.str "public", .str "private", .str "data"] :=
  claim_C2_theorem.1 ⟨167837696, 16⟩ [.str "public", .str "private", .str "data"] _
    (by simp [compute, computeAux, computeLoop, findPfx, findPfxAux, find_structure_len,
      itemWeight, subnetsList, dictInsert])
    (by simp [listCountsOk, itemCountsOk])
    (by simp [leafIds, itemLeafIds])

/-- C1 counterexample: root `10.0.0.0/8`, structure
`[placeholder-with-count-2, "b"]`: the slot count 3 sizes the split into
four /10 blocks, but `"b"` receives the sub-block at its ITEM index 1
(`10.64.0.0/10`), not the sub-block at slot offset 2 (`10.128.0.0/10`)
that the claim's count-k consumption rule predicts. -/
theorem claim_C1_counterexample :
    compute ⟨167772160, 8⟩ [.phN 2, .str "b"] = .ok [("b", ⟨171966464, 10⟩)] ∧
    dictLookup [("b", ⟨171966464, 10⟩)] "b" = some ⟨171966464, 10⟩ ∧
    (⟨171966464, 10⟩ : IPv4Net) ≠ ⟨167772160 + 2 * 2 ^ (32 - 8 - 2), 8 + 2⟩ := by
  refine ⟨?_, by rfl, by decide⟩
  simp [compute, computeAux, computeLoop, findPfx, findPfxAux, find_structure_len,
    itemWeight, subnetsList, dictInsert]

/-- C1 (amended): the walk consumes one sub-block per structure ITEM, by
item index — a `Placeholder` with count k consumes a single position, its
count affecting only the slot count used for sizing.  On a successful run,
a leaf at item index `i` whose identifier occurs exactly once in the tree
is assigned sub-block `i` of the parent split. -/
theorem claim_C1_theorem :
    ∀ (net : IPv4Net) (s : List StructItem) (m : Result) (i p : Nat) (id : String),
      compute net s = .ok m →
      s[i]? = some (.str id) → id ≠ "__placeholder__" →
      (leafIds s).count id = 1 →
      findPfx (find_structure_len s) = some p →
      dictLookup m id =
        some ⟨net.base + i * 2 ^ (32 - net.plen - p), net.plen + p⟩ := by
  intro net s m i p id h hi hid hcount hfind
  have haux : computeAux net s [] = .ok m := h
  have hsplit : computeLoop (subnetsList net p) s 0 [] = .ok m ∧ p + net.plen ≤ 32 := by
    unfold computeAux at haux
    by_cases hcap : p + net.plen > 32
    · simp only [hfind, if_pos hcap] at haux
      simp at haux
    · simp only [hfind, if_neg hcap] at haux
      exact ⟨haux, by omega⟩
  have hlen : i < s.length := by
    by_contra hge
    rw [List.getElem?_eq_none (by omega)] at hi
    exact Option.noConfusion hi
  have hbound : 0 + i < (subnetsList net p).length :=
    computeLoop_ok_bound hsplit.1 i hlen
  have hlk := computeAux_lookup_trace haux id
  have htr : lastLookup (traceAux net s) id =
      some ((subnetsList net p).getD (0 + i) ⟨0, 0⟩) := by
    unfold traceAux
    rw [hfind]
    simp only [Option.getD_some]
    exact traceLoop_lastLookup_pos s i 0 id hi hid hcount
  rw [hlk, htr]
  have hget := subnetsList_getElem? (show p + net.plen ≤ 32 from hsplit.2)
    (show 0 + i < (subnetsList net p).length from hbound)
  rw [getD_of_getElem? hget]
  simp [combineOpt]

/-- C1 witness: the counterexample input, through the amended rule —
`"b"` at item index 1 receives sub-block 1 of the /10 split. -/
theorem claim_C1_witness :
    dictLookup [("b", (⟨171966464, 10⟩ : IPv4Net))] "b" =
      some ⟨167772160 + 1 * 2 ^ (32 - 8 - 2), 8 + 2⟩ :=
  claim_C1_theorem ⟨167772160, 8⟩ [.phN 2, .str "b"] [("b", ⟨171966464, 10⟩)] 1 2 "b"
    (by simp [compute, computeAux, computeLoop, findPfx, findPfxAux, find_structure_len,
      itemWeight, subnetsList, dictInsert])
    (by rfl) (by decide)
    (by simp [leafIds, itemLeafIds])
    (by decide)

/-- C5 counterexample: with root `10.0.0.0/8` and the duplicate structure
`["a", "a"]` allocation raises nothing at all — it succeeds, and the
second occurrence's block silently overwrites the first. -/
theorem claim_C5_counterexample :
    compute ⟨167772160, 8⟩ [.str "a", .str "a"] = .ok [("a", ⟨176160768, 9⟩)] := by
  simp [compute, computeAux, computeLoop, findPfx, findPfxAux, find_structure_len,
    itemWeight, subnetsList, dictInsert]

/-- C5 (amended): no duplicate-identifier error exists.  Whether a run
succeeds, and which exception it raises, is independent of every string
in the structure (so duplicated identifiers never cause a failure), and
every exception `_compute` raises is a `ValueError` or an `IndexError` —
there is no `DuplicateIdentifierError` in the program. -/
theorem claim_C5_theorem :
    (∀ (f : String → String) (net : IPv4Net) (s : List StructItem),
      statusOf (compute net (renameList f s)) = statusOf (compute net s)) ∧
    (∀ (net : IPv4Net) (s : List StructItem) (e : PyError) (st : Result),
      compute net s = .error (e, st) →
      (∃ msg, e = PyError.valueError msg) ∨ e = PyError.indexError) := by
  constructor
  · intro f net s
    exact rename_main net s [] f []
  · intro net s e st h
    exact errkind_main net s [] e st h

/-- C5 witness: a failing run's exception is a `ValueError`. -/
theorem claim_C5_witness :
    (∃ msg, PyError.valueError "Too many subnets" = PyError.valueError msg) ∨
      PyError.valueError "Too many subnets" = PyError.indexError :=
  claim_C5_theorem.2 ⟨0, 32⟩ [.str "a", .str "b"] (.valueError "Too many subnets") []
    (by simp [compute, computeAux, computeLoop, findPfx, findPfxAux, find_structure_len,
      itemWeight, subnetsList, dictInsert])

/-- C6: duplicate identifiers do not make allocation fail (the run status
is independent of the identifiers), and the final mapping assigns each
identifier the block of its LAST occurrence in the pre-order walk:
looking a key up in the produced dict gives the last matching entry of
the pre-order assignment trace. -/
theorem claim_C6_theorem :
    (∀ (f : String → String) (net : IPv4Net) (s : List StructItem),
      statusOf (compute net (renameList f s)) = statusOf (compute net s)) ∧
    (∀ (net : IPv4Net) (s : List StructItem) (m : Result),
      compute net s = .ok m →
      ∀ id, dictLookup m id = lastLookup (traceAux net s) id) := by
  constructor
  · intro f net s
    exact rename_main net s [] f []
  · intro net s m h id
    rw [computeAux_lookup_trace h id]
    rw [show dictLookup [] id = none from rfl, combineOpt_none_right]

/-- C6 witness: on `["a", "a"]` the mapping holds the second block, which
is also the last trace entry for `"a"`. -/
theorem claim_C6_witness :
    dictLookup [("a", (⟨176160768, 9⟩ : IPv4Net))] "a" =
      lastLookup (traceAux ⟨167772160, 8⟩ [.str "a", .str "a"]) "a" :=
  claim_C6_theorem.2 ⟨167772160, 8⟩ [.str "a", .str "a"] [("a", ⟨176160768, 9⟩)]
    (by simp [compute, computeAux, computeLoop, findPfx, findPfxAux, find_structure_len,
      itemWeight, subnetsList, dictInsert])
    "a"

/-- C8 (code bug): a present metadata entry with the optional `name`
field unset is `SubnetMetadata(name=None, ...)` (pydantic does not
validate defaults), and `build_data` then evaluates
`len(subnet_metadata.name)` on `None`, raising `TypeError` instead of
falling back to the identifier as the spec requires for optional fields;
evaluated at allocation `a ↦ 10.0.0.0/24` with metadata
`a ↦ (description "d")`. -/
theorem claim_C8_theorem :
    buildData [("a", ⟨none, some "d", none⟩)] [("a", ⟨167772160, 24⟩)] =
      .error (.typeError "object of type NoneType has no len()") := rfl

/-- C9: round-trip — for every allocation of well-formed networks,
serializing the built records via `to_dict` and re-deriving the
`cidr`, `first_address` and `last_address` fields from the serialized
cidr string reproduces strings identical to the original records. -/
theorem claim_C9_theorem :
    ∀ (cfgNet : IPv4Net) (metadata : List (String × SubnetMetadata))
      (alloc : Result) (data : List SubnetInfo),
      buildData metadata alloc = .ok data →
      (∀ e ∈ alloc, validNet e.2) →
      ∀ entry ∈ (to_dict cfgNet data).subnets,
        rederiveFields entry.cidr =
          some (entry.cidr, entry.first_address, entry.last_address) := by
  intro cfgNet metadata alloc data hbuild hvalid entry hentry
  unfold to_dict at hentry
  simp only [List.mem_map] at hentry
  rcases hentry with ⟨info, hinfo, rfl⟩
  rcases buildData_fields hbuild info hinfo with ⟨e, he, hcidr, hfirst, hlast⟩
  show rederiveFields (netStr info.cidr) =
    some (netStr info.cidr, info.first_address, info.last_address)
  rw [hcidr, hfirst, hlast]
  unfold rederiveFields
  rw [parseCIDR_netStr (hvalid e he)]
  rfl

/-- C9 witness: the single-entry allocation `a ↦ 10.0.0.0/24` with no
metadata round-trips its serialized strings. -/
theorem claim_C9_witness :
    rederiveFields (netStr ⟨167772160, 24⟩) =
      some (netStr ⟨167772160, 24⟩, addrStr 167772160,
        addrStr (broadcastAddr ⟨167772160, 24⟩)) := by
  have h := claim_C9_theorem ⟨167772160, 8⟩ [] [("a", ⟨167772160, 24⟩)]
    [⟨"a", "a", "---", ⟨167772160, 24⟩, addrStr 167772160,
      addrStr (broadcastAddr ⟨167772160, 24⟩)⟩]
    (by rfl)
    (by
      intro e he
      rw [List.mem_singleton] at he
      subst he
      decide)
  exact h ⟨"a", "a", netStr ⟨167772160, 24⟩, "---", addrStr 167772160,
    addrStr (broadcastAddr ⟨167772160, 24⟩)⟩ (by simp [to_dict])

/-- C10: with every placeholder count at least 1, the number of
sub-blocks `2^p` of a successful sizing is at least the number of
structure items, so every index the loop walks is in bounds and no
`IndexError` can be raised at any level; with a zero count the bound
fails, and concretely `[\x7bplaceholder: 0\x7d, \x7bplaceholder: 0\x7d]` raises
`IndexError`. -/
theorem claim_C10_theorem :
    (∀ (s : List StructItem) (p : Nat),
      listCountsOk s = true → findPfx (find_structure_len s) = some p →
      s.length ≤ 2 ^ p) ∧
    (∀ (parent : IPv4Net) (s : List StructItem) (res : Result) (e : PyError)
      (st : Result),
      listCountsOk s = true → computeAux parent s res = .error (e, st) →
      e ≠ PyError.indexError) ∧
    compute ⟨167772160, 8⟩ [.phN 0, .phN 0] = .error (.indexError, []) := by
  refine ⟨?_, ?_, ?_⟩
  · intro s p hcounts hfind
    have h1 := length_le_structure_len hcounts
    have h2 := findPfx_le hfind
    have h3 : ((2 ^ p : Nat) : Int) = (2 : Int) ^ p := by push_cast; rfl
    omega
  · intro parent s res e st hcounts h
    exact noidx_main parent s res hcounts e st h
  · simp [compute, computeAux, computeLoop, findPfx, findPfxAux, find_structure_len,
      itemWeight, subnetsList, dictInsert, show List.range 1 = [0] from rfl]

/-- C10 witness: a one-leaf structure fits in `2^0` sub-blocks. -/
theorem claim_C10_witness : [StructItem.str "x"].length ≤ 2 ^ 0 :=
  claim_C10_theorem.1 [.str "x"] 0 (by simp [listCountsOk, itemCountsOk]) (by decide)
